import Mathlib

/-!
Shallow embedding of the sc4texture tile-deduplication engine
(`imageset.go`, `hash.go`) together with proofs about its behaviour.

Images are modelled as zero-origin pixel grids: `width`, `height` and a
total pixel function.  PNG decoding always yields zero-origin bounds, so
`bounds.Max.X - bounds.Min.X` is the width and the pixel loops of the Go
code run over `0 ≤ x < width`, `0 ≤ y < height`.  Channel values are the
integers returned by Go's `color.RGBA()` (fitting in `uint32`); machine
words are modelled as `Nat` with explicit reductions modulo `2^64` where
the Go code relies on `uint64` wrap-around.
-/

set_option maxRecDepth 100000
set_option autoImplicit false

/-- One RGBA pixel; the four channel values returned by `color.RGBA()`. -/
structure Pixel where
  r : Nat
  g : Nat
  b : Nat
  a : Nat
deriving DecidableEq

/-- A zero-origin raster image: `image.Image` restricted to what the code
reads from it (its bounds and its pixels). -/
structure Image where
  width : Nat
  height : Nat
  pix : Nat → Nat → Pixel

instance : Inhabited Image := ⟨⟨0, 0, fun _ _ => ⟨0, 0, 0, 0⟩⟩⟩

/-- Pixel-for-pixel equality of two images: same dimensions and the same
pixel at every in-bounds coordinate. -/
def Image.equiv (a b : Image) : Prop :=
  a.width = b.width ∧ a.height = b.height ∧
    ∀ x, x < a.width → ∀ y, y < a.height → a.pix x y = b.pix x y

instance (a b : Image) : Decidable (Image.equiv a b) := by
  unfold Image.equiv
  infer_instance

/-! ### The pixel hasher (`hash.go`) -/

/-- Source: `convertUint32ToBytes` — the four big-endian bytes of a 32-bit
channel value (`value >> 24 & 0xFF`, `value >> 16 & 0xFF`,
`value >> 8 & 0xFF`, `value & 0xFF`). -/
def convertUint32ToBytes (value : Nat) : List Nat :=
  [value >>> 24 &&& 0xFF, value >>> 16 &&& 0xFF, value >>> 8 &&& 0xFF, value &&& 0xFF]

/-- Writing a byte sequence into the `data` buffer at offset `pos`
(the effect of `convertUint32ToBytes(v, data[pos:pos+4])`). -/
def writeBuf : List Nat → Nat → List Nat → List Nat
  | data, _, [] => data
  | data, pos, b :: bs => writeBuf (data.set pos b) (pos + 1) bs

/-- One iteration of the pixel loop of `Hash`: write the four channels of
the pixel at the cursor.  The source advances `pos` by 4 after the `r`,
`g` and `b` writes but NOT after the `a` write — the returned cursor is
`pos + 12`, so the next pixel's `r` bytes overwrite this pixel's `a`
bytes. -/
def hashStep (st : List Nat × Nat) (c : Pixel) : List Nat × Nat :=
  let d1 := writeBuf st.1 st.2 (convertUint32ToBytes c.r)
  let p1 := st.2 + 4
  let d2 := writeBuf d1 p1 (convertUint32ToBytes c.g)
  let p2 := p1 + 4
  let d3 := writeBuf d2 p2 (convertUint32ToBytes c.b)
  let p3 := p2 + 4
  let d4 := writeBuf d3 p3 (convertUint32ToBytes c.a)
  (d4, p3)

/-- The pixels of an image in row-major order (`y` outer loop, `x` inner
loop), exactly the order in which `Hash` visits them. -/
def rowMajor (img : Image) : List Pixel :=
  (List.range img.height).flatMap (fun y => (List.range img.width).map (fun x => img.pix x y))

/-- The `data` byte buffer as it stands when `Hash` finally feeds it to the
FNV hash: `make([]byte, w*h*16)` (all zero) after the pixel loop ran over
it with `hashStep`. -/
def hashData (img : Image) : List Nat :=
  let size := img.width * img.height * 16
  ((rowMajor img).foldl hashStep (List.replicate size 0, 0)).1

/-- The 64-bit FNV-1a offset basis used by `fnv.New64a()`. -/
def fnvOffsetBasis : Nat := 14695981039346656037

/-- The 64-bit FNV prime. -/
def fnvPrime : Nat := 1099511628211

/-- Modulus for `uint64` wrap-around arithmetic. -/
def uint64Mod : Nat := 18446744073709551616

/-- The 64-bit FNV-1a hash of a byte sequence: starting from the offset
basis, each byte is XOR-ed in and the state is multiplied by the FNV
prime with `uint64` wrap-around. -/
def fnv1a64 (bs : List Nat) : Nat :=
  bs.foldl (fun h b => ((h ^^^ b) * fnvPrime) % uint64Mod) fnvOffsetBasis

/-- Source: `Hash` — serialize the pixels into `data` (via the flawed
cursor discipline of `hashStep`) and hash the whole buffer with FNV-1a. -/
def Hash (image : Image) : Nat :=
  fnv1a64 (hashData image)

/-! ### The `imaging` library operations used by `AddImage`/`Process`.
`Rotate90`, `Rotate180` and `Rotate270` rotate counter-clockwise by the
given angle; `FlipH` mirrors across the vertical axis; `Crop` cuts the
given rectangle (intersected with the image bounds) out as a new
zero-origin image. -/

/-- Rotation by 90 degrees counter-clockwise. -/
def Rotate90 (img : Image) : Image :=
  ⟨img.height, img.width, fun x y => img.pix (img.width - 1 - y) x⟩

/-- Rotation by 180 degrees. -/
def Rotate180 (img : Image) : Image :=
  ⟨img.width, img.height, fun x y => img.pix (img.width - 1 - x) (img.height - 1 - y)⟩

/-- Rotation by 270 degrees counter-clockwise. -/
def Rotate270 (img : Image) : Image :=
  ⟨img.height, img.width, fun x y => img.pix y (img.height - 1 - x)⟩

/-- Horizontal mirror (flip across the vertical axis). -/
def FlipH (img : Image) : Image :=
  ⟨img.width, img.height, fun x y => img.pix (img.width - 1 - x) y⟩

/-- An axis-aligned rectangle, `image.Rect(minX, minY, maxX, maxY)`.  The
rectangles built by this program have non-negative coordinates, so `Nat`
suffices. -/
structure Rect where
  minX : Nat
  minY : Nat
  maxX : Nat
  maxY : Nat

/-- Cut out the rectangle `r` (intersected with the image bounds) as a new
zero-origin image, as `imaging.Crop` does. -/
def Crop (img : Image) (r : Rect) : Image :=
  let x0 := min r.minX img.width
  let y0 := min r.minY img.height
  let x1 := min r.maxX img.width
  let y1 := min r.maxY img.height
  ⟨x1 - x0, y1 - y0, fun x y => img.pix (x0 + x) (y0 + y)⟩

/-! ### The image set (`imageset.go`) -/

/-- The `ImageSet` state: the prototype registry (Go's
`map[uint64]image.Image`, modelled as an association list with distinct
keys), the two parallel per-cell arrays and the stride.  The
`SourceImagePath` field is pure I/O configuration and carries no
algorithmic content. -/
structure ImageSet where
  protoImages : List (Nat × Image)
  images : List Nat
  orientations : List Nat
  stride : Nat

/-- Source: `NewImageSet` — a fresh state with an empty prototype map. -/
def NewImageSet : ImageSet :=
  ⟨[], [], [], 0⟩

/-- Go map assignment `m[k] = v`: replace the binding of `k` if present,
otherwise add a new one. -/
def mapSet : List (Nat × Image) → Nat → Image → List (Nat × Image)
  | [], k, v => [(k, v)]
  | (k0, v0) :: rest, k, v =>
    if k0 = k then (k, v) :: rest else (k0, v0) :: mapSet rest k v

/-- The `images[0..7]` array built at the top of `AddImage`: identity, the
three rotations of the original, the horizontal mirror, and the three
rotations of the mirror. -/
def variants (img : Image) : List Image :=
  let m := FlipH img
  [img, Rotate90 img, Rotate180 img, Rotate270 img, m, Rotate90 m, Rotate180 m, Rotate270 m]

/-- The search loop of `AddImage`: hash each variant in order and return
`(i, hash)` for the first variant whose hash is a key of the prototype
map, or `none` when no variant matches. -/
def scanVariants (proto : List (Nat × Image)) : List Image → Nat → Option (Nat × Nat)
  | [], _ => none
  | v :: vs, i =>
    match List.lookup (Hash v) proto with
    | some _ => some (i, Hash v)
    | none => scanVariants proto vs (i + 1)

/-- Source: `AddImage` — compute the 8 orientation variants, scan them in
index order against the prototype registry; on a match record the matched
hash and the matching index, otherwise insert the identity variant under
its own hash (`firstHash`, the hash computed at `i == 0`) and record it
with orientation 0. -/
def AddImage (p : ImageSet) (img : Image) (x y : Nat) : ImageSet :=
  let index := y * p.stride + x
  match scanVariants p.protoImages (variants img) 0 with
  | some ih =>
    { p with orientations := p.orientations.set index ih.1,
             images := p.images.set index ih.2 }
  | none =>
    let firstHash := Hash img
    { p with protoImages := mapSet p.protoImages firstHash img,
             images := p.images.set index firstHash,
             orientations := p.orientations.set index 0 }

/-- Source: `calculateStride` — `(bounds.Max.X - bounds.Min.X) / 128` with
truncating integer division. -/
def calculateStride (width : Nat) : Nat :=
  width / 128

/-- Source: `calculateNumberImages` — the number of 128x128 tiles in each
direction. -/
def calculateNumberImages (width height : Nat) : Nat × Nat :=
  (calculateStride width, height / 128)

/-- The rectangle `image.Rect(x*128, y*128, (x+1)*128, (y+1)*128)` cropped
for grid cell `(x, y)` inside `Process`. -/
def cellBounds (x y : Nat) : Rect :=
  ⟨x * 128, y * 128, (x + 1) * 128, (y + 1) * 128⟩

/-- The grid cells in the order the nested loops of `Process` visit them:
`y` outer, `x` inner. -/
def cellList (numX numY : Nat) : List (Nat × Nat) :=
  (List.range numY).flatMap (fun y => (List.range numX).map (fun x => (x, y)))

/-- The extraction loop of `Process`: crop each cell and feed it to
`AddImage`. -/
def processCells (sourceImage : Image) (p : ImageSet) (cells : List (Nat × Nat)) : ImageSet :=
  cells.foldl (fun q c => AddImage q (Crop sourceImage (cellBounds c.1 c.2)) c.1 c.2) p

/-- Source: `Process`.  Loading the source image is I/O, so its outcome is
passed in as an `Option Image` (`getSourceImage` returns `nil` on any
load failure).  On `none`, `Process` returns immediately: the state is
untouched and neither `WriteImageFiles` nor `WriteReport` runs.  On
`some img` it sizes the arrays, runs the extraction loop and then invokes
the two writers; the returned flag records whether the writers ran. -/
def Process (p : ImageSet) (sourceImage : Option Image) : ImageSet × Bool :=
  match sourceImage with
  | none => (p, false)
  | some img =>
    let nums := calculateNumberImages img.width img.height
    let q : ImageSet :=
      { p with stride := nums.1,
               images := List.replicate (nums.1 * nums.2) 0,
               orientations := List.replicate (nums.1 * nums.2) 0 }
    (processCells img q (cellList nums.1 nums.2), true)

/-- Source: `GetOrientationLabel` — the orientation byte is masked with
`0x7` and dispatched over the eight codes; the final `return ""` is the
fall-through after the switch. -/
def GetOrientationLabel (orientation : Nat) : String :=
  match orientation &&& 0x7 with
  | 0 => "Standard"
  | 1 => "Rotated 90 degrees"
  | 2 => "Rotated 180 degrees"
  | 3 => "Rotated 270 degrees"
  | 4 => "Mirrored"
  | 5 => "Mirrored + Rotated 90 degrees"
  | 6 => "Mirrored + Rotated 180 degrees"
  | 7 => "Mirrored + Rotated 270 degrees"
  | _ => ""

/-! ### Modular exponentiation with logarithmic recursion depth.
`fnvPrime ^ k % 2^64` for tile-sized `k` cannot be evaluated through
`Nat.pow` inside a kernel reduction (the recursion is as deep as `k`), so
we use binary exponentiation with an explicit fuel of 64 bits and prove
it equal to `b ^ e % 2^64`. -/

def powModAux : Nat → Nat → Nat → Nat
  | 0, _, _ => 1
  | fuel + 1, b, e =>
    if e = 0 then 1
    else
      let h := powModAux fuel b (e / 2)
      if e % 2 = 0 then h * h % uint64Mod else h * h % uint64Mod * b % uint64Mod

def powMod (b e : Nat) : Nat := powModAux 64 b e

theorem powModAux_eq : ∀ (fuel b e : Nat), e < 2 ^ fuel →
    powModAux fuel b e = b ^ e % uint64Mod := by
  intro fuel
  induction fuel with
  | zero =>
    intro b e he
    interval_cases e
    simp [powModAux, uint64Mod]
  | succ n ih =>
    intro b e he
    by_cases he0 : e = 0
    · simp [powModAux, he0, uint64Mod]
    · have hdiv : e / 2 < 2 ^ n := by
        have h2 : (2 : Nat) ^ (n + 1) = 2 ^ n * 2 := by ring
        omega
      have hrec := ih b (e / 2) hdiv
      have hsplit := Nat.div_add_mod e 2
      rcases Nat.even_or_odd e with hpar | hpar
      · have hm : e % 2 = 0 := Nat.even_iff.mp hpar
        have hee : e / 2 + e / 2 = e := by omega
        simp only [powModAux, he0, if_neg, hm, if_pos, hrec, ite_true, ite_false]
        rw [← Nat.mul_mod, ← pow_add, hee]
      · have hm : e % 2 = 1 := Nat.odd_iff.mp hpar
        have hee : e / 2 + e / 2 + 1 = e := by omega
        simp only [powModAux, he0, hm, ite_false, hrec, if_neg one_ne_zero]
        rw [← Nat.mul_mod, Nat.mod_mul_mod, ← pow_add, ← pow_succ, hee]

theorem powMod_eq (b e : Nat) (he : e < 2 ^ 64) : powMod b e = b ^ e % uint64Mod :=
  powModAux_eq 64 b e he

/-! ### FNV folding lemmas -/

/-- FNV-1a folding continued from an arbitrary state. -/
def fnvFold (h0 : Nat) (bs : List Nat) : Nat :=
  bs.foldl (fun h b => ((h ^^^ b) * fnvPrime) % uint64Mod) h0

theorem fnv1a64_eq_fnvFold (bs : List Nat) : fnv1a64 bs = fnvFold fnvOffsetBasis bs := rfl

theorem fnvFold_append (h0 : Nat) (bs cs : List Nat) :
    fnvFold h0 (bs ++ cs) = fnvFold (fnvFold h0 bs) cs :=
  List.foldl_append _ _ _ _

theorem fnvFold_nil (h0 : Nat) : fnvFold h0 [] = h0 := rfl

theorem fnvFold_cons (h0 b : Nat) (bs : List Nat) :
    fnvFold h0 (b :: bs) = fnvFold (((h0 ^^^ b) * fnvPrime) % uint64Mod) bs := rfl

theorem uint64Mod_pos : 0 < uint64Mod := by decide

/-- Folding a run of zero bytes multiplies the state by `fnvPrime ^ k`
modulo `2^64` (XOR with zero is the identity). -/
theorem fnvFold_zeros : ∀ (k : Nat) (h0 : Nat), h0 < uint64Mod →
    fnvFold h0 (List.replicate k 0) = h0 * fnvPrime ^ k % uint64Mod := by
  intro k
  induction k with
  | zero =>
    intro h0 hlt
    simp [fnvFold, Nat.mod_eq_of_lt hlt]
  | succ n ih =>
    intro h0 hlt
    rw [List.replicate_succ, fnvFold_cons, Nat.xor_zero,
      ih (h0 * fnvPrime % uint64Mod) (Nat.mod_lt _ uint64Mod_pos),
      Nat.mod_mul_mod, mul_assoc, ← pow_succ']

theorem fnvOffsetBasis_lt : fnvOffsetBasis < uint64Mod := by decide

/-! ### Characterizing the serialized byte buffer.
Because the cursor is not advanced after the alpha write, the buffer that
actually reaches the FNV hash consists of the R, G and B bytes of every
pixel in row-major order, followed by the alpha bytes of the LAST pixel
only, followed by the untouched tail of zero bytes.  Every other pixel's
alpha bytes are overwritten by the next pixel's red bytes. -/

theorem length_convertUint32ToBytes (v : Nat) : (convertUint32ToBytes v).length = 4 := rfl

theorem set_append_len {α : Type} (A : List α) (c b : α) (t : List α) :
    (A ++ c :: t).set A.length b = A ++ b :: t := by
  induction A with
  | nil => simp
  | cons a A ih => simp [List.set_cons_succ, ih]

theorem writeBuf_append : ∀ (bs B A C : List Nat), B.length = bs.length →
    writeBuf (A ++ B ++ C) A.length bs = A ++ bs ++ C := by
  intro bs
  induction bs with
  | nil =>
    intro B A C hB
    have : B = [] := List.length_eq_zero.mp hB
    subst this
    simp [writeBuf]
  | cons b bs ih =>
    intro B A C hB
    cases B with
    | nil => simp at hB
    | cons b0 B =>
      simp only [writeBuf]
      have h1 : (A ++ (b0 :: B) ++ C).set A.length b = (A ++ [b]) ++ (B ++ C) := by
        rw [List.append_assoc, List.cons_append, set_append_len, List.append_assoc]
        simp
      have h2 : A.length + 1 = (A ++ [b]).length := by simp
      rw [h1, h2, ← List.append_assoc (A ++ [b]) B C,
        ih B (A ++ [b]) C (by simpa using hB)]
      simp

theorem writeBuf_mid (A Z : List Nat) (v : Nat) (hZ : 4 ≤ Z.length) :
    writeBuf (A ++ Z) A.length (convertUint32ToBytes v) =
      A ++ convertUint32ToBytes v ++ List.drop 4 Z := by
  have hsplit : A ++ Z = A ++ List.take 4 Z ++ List.drop 4 Z := by
    rw [List.append_assoc, List.take_append_drop]
  rw [hsplit]
  exact writeBuf_append _ _ _ _
    (by simp [List.length_take, length_convertUint32ToBytes]; omega)

theorem hashStep_eq (A Z : List Nat) (pos : Nat) (c : Pixel) (hpos : pos = A.length)
    (hZ : 16 ≤ Z.length) :
    hashStep (A ++ Z, pos) c =
      (A ++ convertUint32ToBytes c.r ++ convertUint32ToBytes c.g ++ convertUint32ToBytes c.b ++
        convertUint32ToBytes c.a ++ List.drop 16 Z, pos + 12) := by
  subst hpos
  simp only [hashStep]
  rw [writeBuf_mid A Z c.r (by omega)]
  have e1 : A.length + 4 = (A ++ convertUint32ToBytes c.r).length := by
    simp [length_convertUint32ToBytes]
  rw [e1, writeBuf_mid _ _ c.g (by simp [List.length_drop]; omega)]
  have e2 : (A ++ convertUint32ToBytes c.r).length + 4 =
      (A ++ convertUint32ToBytes c.r ++ convertUint32ToBytes c.g).length := by
    simp [length_convertUint32ToBytes]
  rw [e2, writeBuf_mid _ _ c.b (by simp [List.length_drop]; omega)]
  have e3 : (A ++ convertUint32ToBytes c.r ++ convertUint32ToBytes c.g).length + 4 =
      (A ++ convertUint32ToBytes c.r ++ convertUint32ToBytes c.g ++
        convertUint32ToBytes c.b).length := by
    simp [length_convertUint32ToBytes]
  rw [e3, writeBuf_mid _ _ c.a (by simp [List.length_drop]; omega)]
  rw [List.drop_drop, List.drop_drop, List.drop_drop]
  refine Prod.ext ?_ ?_
  · norm_num
  · simp [length_convertUint32ToBytes]

/-- The R, G and B byte blocks of a pixel sequence (the part of each
pixel's serialization that survives in the buffer). -/
def rgbBytes (ps : List Pixel) : List Nat :=
  ps.flatMap (fun c =>
    convertUint32ToBytes c.r ++ convertUint32ToBytes c.g ++ convertUint32ToBytes c.b)

theorem rgbBytes_append (ps qs : List Pixel) :
    rgbBytes (ps ++ qs) = rgbBytes ps ++ rgbBytes qs :=
  List.flatMap_append _ _ _

theorem rgbBytes_length (ps : List Pixel) : (rgbBytes ps).length = 12 * ps.length := by
  induction ps with
  | nil => rfl
  | cons c ps ih =>
    have hcons : rgbBytes (c :: ps) =
        (convertUint32ToBytes c.r ++ convertUint32ToBytes c.g ++ convertUint32ToBytes c.b) ++
          rgbBytes ps := by
      simp [rgbBytes, List.flatMap_cons, List.append_assoc]
    rw [hcons, List.length_append, ih, List.length_cons]
    simp only [List.length_append, length_convertUint32ToBytes]
    omega

theorem foldl_hashStep_spec : ∀ (ps : List Pixel) (N : Nat) (hne : ps ≠ []),
    12 * ps.length + 4 ≤ N →
    ps.foldl hashStep (List.replicate N 0, 0) =
      (rgbBytes ps ++ convertUint32ToBytes (ps.getLast hne).a ++
        List.replicate (N - (12 * ps.length + 4)) 0, 12 * ps.length) := by
  intro ps
  induction ps using List.reverseRecOn with
  | nil => intro N hne; exact absurd rfl hne
  | append_singleton qs c ih =>
    intro N hne hN
    rw [List.foldl_append, List.foldl_cons, List.foldl_nil]
    by_cases hq : qs = []
    · subst hq
      simp only [List.nil_append, List.length_cons, List.length_nil] at hN
      simp only [List.foldl_nil, List.nil_append]
      have h0 := hashStep_eq [] (List.replicate N 0) 0 c rfl
        (by simp [List.length_replicate]; omega)
      simp only [List.nil_append] at h0
      rw [h0, List.drop_replicate]
      refine Prod.ext ?_ ?_
      · show _ ++ _ = _ ++ _
        simp only [rgbBytes, List.flatMap_cons, List.flatMap_nil, List.append_nil,
          List.getLast_singleton, List.length_cons, List.length_nil, List.append_assoc]
      · show (0 : Nat) + 12 = 12 * (0 + 1)
        omega
    · have hlen : (qs ++ [c]).length = qs.length + 1 := by simp
      rw [ih _ hq (by rw [hlen] at hN; omega)]
      have hstep := hashStep_eq (rgbBytes qs)
        (convertUint32ToBytes ((qs.getLast hq).a) ++
          List.replicate (N - (12 * qs.length + 4)) 0)
        (12 * qs.length) c (rgbBytes_length qs).symm
        (by
          simp [length_convertUint32ToBytes, List.length_replicate]
          rw [hlen] at hN
          omega)
      rw [← List.append_assoc] at hstep
      rw [hstep]
      have h16 : (16 : Nat) = (convertUint32ToBytes ((qs.getLast hq).a)).length + 12 := by
        simp [length_convertUint32ToBytes]
      rw [h16, List.drop_append, List.drop_replicate]
      refine Prod.ext ?_ ?_
      · show _ ++ _ = _ ++ _
        simp only [rgbBytes, List.flatMap_append, List.flatMap_cons, List.flatMap_nil,
          List.append_nil, List.getLast_append_singleton, hlen, List.append_assoc]
        have hcount : N - (12 * qs.length + 4) - 12 = N - (12 * (qs.length + 1) + 4) := by
          omega
        rw [hcount]
      · show 12 * qs.length + 12 = 12 * (qs ++ [c]).length
        rw [hlen]
        omega

theorem rowMajor_length (img : Image) :
    (rowMajor img).length = img.height * img.width := by
  unfold rowMajor
  induction img.height with
  | zero => simp
  | succ n ih =>
    rw [List.range_succ, List.flatMap_append, List.length_append, ih]
    simp [Nat.succ_mul]

/-- The byte buffer `hashData` produces, written directly: the R, G and B
blocks of every pixel, the alpha block of the last pixel, and the zero
tail that the cursor never reached. -/
def hashDataFast (img : Image) : List Nat :=
  if (rowMajor img).isEmpty then [] else
    rgbBytes (rowMajor img) ++
      convertUint32ToBytes ((rowMajor img).getLast?.getD ⟨0, 0, 0, 0⟩).a ++
      List.replicate (img.width * img.height * 16 - (12 * (rowMajor img).length + 4)) 0

theorem hashData_eq_fast (img : Image) : hashData img = hashDataFast img := by
  by_cases hne : rowMajor img = []
  · have hwh : img.height * img.width = 0 := by rw [← rowMajor_length, hne]; rfl
    have hwh2 : img.width * img.height * 16 = 0 := by
      rw [mul_comm img.width img.height, hwh, zero_mul]
    simp only [hashData, hashDataFast, hne, hwh2]
    simp
  · have hpos : 1 ≤ (rowMajor img).length := List.length_pos.mpr hne
    have hmul : img.width * img.height * 16 = 16 * (rowMajor img).length := by
      rw [rowMajor_length, mul_comm img.height img.width]
      ring
    have hN : 12 * (rowMajor img).length + 4 ≤ img.width * img.height * 16 := by
      rw [hmul]
      omega
    simp only [hashData, hashDataFast]
    rw [if_neg (by simp [List.isEmpty_iff, hne])]
    rw [List.getLast?_eq_getLast_of_ne_nil hne]
    rw [foldl_hashStep_spec (rowMajor img) _ hne hN]
    simp

/-- `Hash` rewritten through the explicit buffer form: this is the version
concrete hash computations evaluate, since it is linear in the pixel count
rather than quadratic. -/
def HashF (img : Image) : Nat :=
  fnv1a64 (hashDataFast img)

theorem Hash_eq_fast (img : Image) : Hash img = HashF img := by
  unfold Hash HashF
  rw [hashData_eq_fast]

/-! ### Association list (Go map) lemmas -/

theorem lookup_mapSet (m : List (Nat × Image)) (k k0 : Nat) (v : Image) :
    List.lookup k0 (mapSet m k v) = if k0 = k then some v else List.lookup k0 m := by
  induction m with
  | nil =>
    by_cases h : k0 = k
    · subst h
      simp [mapSet, List.lookup_cons]
    · have hb : (k0 == k) = false := beq_eq_false_iff_ne.mpr h
      simp [mapSet, List.lookup_cons, hb, h]
  | cons e m ih =>
    obtain ⟨k1, v1⟩ := e
    by_cases h1 : k1 = k
    · subst h1
      by_cases h : k0 = k1
      · subst h
        simp [mapSet, List.lookup_cons]
      · have hb : (k0 == k1) = false := beq_eq_false_iff_ne.mpr h
        simp [mapSet, List.lookup_cons, hb, h]
    · by_cases h : k0 = k1
      · subst h
        simp [mapSet, if_neg h1, List.lookup_cons, h1]
      · have hb : (k0 == k1) = false := beq_eq_false_iff_ne.mpr h
        simp [mapSet, if_neg h1, List.lookup_cons, hb, ih]

/-! ### Characterizing the variant scan and `AddImage` -/

theorem scanVariants_none : ∀ (vs : List Image) (proto : List (Nat × Image)) (i : Nat),
    (∀ v ∈ vs, List.lookup (Hash v) proto = none) →
    scanVariants proto vs i = none := by
  intro vs
  induction vs with
  | nil => intro proto i _; rfl
  | cons v vs ih =>
    intro proto i hmiss
    have h0 : List.lookup (Hash v) proto = none := hmiss v (List.mem_cons_self v vs)
    simp only [scanVariants, h0]
    exact ih proto (i + 1) (fun w hw => hmiss w (List.mem_cons_of_mem v hw))

theorem scanVariants_all_none : ∀ (vs : List Image) (proto : List (Nat × Image)) (i : Nat),
    scanVariants proto vs i = none →
    ∀ v ∈ vs, List.lookup (Hash v) proto = none := by
  intro vs
  induction vs with
  | nil => intro proto i _ v hv; simp at hv
  | cons v vs ih =>
    intro proto i hscan w hw
    rcases List.mem_cons.mp hw with hw | hw
    · subst hw
      cases hL : List.lookup (Hash w) proto with
      | none => rfl
      | some u =>
        simp only [scanVariants, hL] at hscan
        exact Option.noConfusion hscan
    · cases hL : List.lookup (Hash v) proto with
      | none =>
        simp only [scanVariants, hL] at hscan
        exact ih proto (i + 1) hscan w hw
      | some u =>
        simp only [scanVariants, hL] at hscan
        exact Option.noConfusion hscan

theorem scanVariants_found : ∀ (vs : List Image) (proto : List (Nat × Image)) (i j : Nat),
    j < vs.length →
    (∀ k, k < j → List.lookup (Hash (vs.getD k default)) proto = none) →
    (List.lookup (Hash (vs.getD j default)) proto).isSome = true →
    scanVariants proto vs i = some (i + j, Hash (vs.getD j default)) := by
  intro vs
  induction vs with
  | nil => intro proto i j hj; simp at hj
  | cons v vs ih =>
    intro proto i j hj hmiss hfound
    cases j with
    | zero =>
      rw [List.getD_cons_zero] at hfound ⊢
      cases hL : List.lookup (Hash v) proto with
      | none => rw [hL] at hfound; simp at hfound
      | some u => simp [scanVariants, hL]
    | succ j =>
      have h0 : List.lookup (Hash v) proto = none := by
        have := hmiss 0 (Nat.succ_pos j)
        rwa [List.getD_cons_zero] at this
      rw [List.getD_cons_succ] at hfound ⊢
      simp only [scanVariants, h0]
      have hrec := ih proto (i + 1) j (by simpa using hj)
        (fun k hk => by
          have := hmiss (k + 1) (by omega)
          rwa [List.getD_cons_succ] at this)
        hfound
      rw [hrec]
      refine congrArg _ ?_
      refine Prod.ext ?_ rfl
      show i + 1 + j = i + (j + 1)
      omega

theorem variants_length (img : Image) : (variants img).length = 8 := rfl

/-- `AddImage`, match case: the first matching variant index `j` and its
hash are recorded in the two cell arrays; the registry is untouched. -/
theorem AddImage_found (p : ImageSet) (img : Image) (x y j : Nat)
    (hj : j < 8)
    (hmiss : ∀ k, k < j →
      List.lookup (Hash ((variants img).getD k default)) p.protoImages = none)
    (hfound : (List.lookup (Hash ((variants img).getD j default)) p.protoImages).isSome = true) :
    AddImage p img x y =
      { p with orientations := p.orientations.set (y * p.stride + x) j,
               images := p.images.set (y * p.stride + x)
                 (Hash ((variants img).getD j default)) } := by
  unfold AddImage
  rw [scanVariants_found (variants img) p.protoImages 0 j (by rw [variants_length]; omega)
    hmiss hfound]
  simp

/-- `AddImage`, no-match case: the identity variant is inserted into the
registry under its own hash and recorded with orientation 0. -/
theorem AddImage_not_found (p : ImageSet) (img : Image) (x y : Nat)
    (hmiss : ∀ v ∈ variants img, List.lookup (Hash v) p.protoImages = none) :
    AddImage p img x y =
      { p with protoImages := mapSet p.protoImages (Hash img) img,
               images := p.images.set (y * p.stride + x) (Hash img),
               orientations := p.orientations.set (y * p.stride + x) 0 } := by
  unfold AddImage
  rw [scanVariants_none (variants img) p.protoImages 0 hmiss]

theorem scanVariants_some_isSome : ∀ (vs : List Image) (proto : List (Nat × Image)) (i j h : Nat),
    scanVariants proto vs i = some (j, h) → (List.lookup h proto).isSome = true := by
  intro vs
  induction vs with
  | nil => intro proto i j h hscan; exact Option.noConfusion hscan
  | cons v vs ih =>
    intro proto i j h hscan
    cases hL : List.lookup (Hash v) proto with
    | none =>
      simp only [scanVariants, hL] at hscan
      exact ih proto (i + 1) j h hscan
    | some u =>
      simp only [scanVariants, hL, Option.some_inj, Prod.mk.injEq] at hscan
      rw [← hscan.2, hL]
      rfl

theorem AddImage_stride (p : ImageSet) (img : Image) (x y : Nat) :
    (AddImage p img x y).stride = p.stride := by
  unfold AddImage
  rcases scanVariants p.protoImages (variants img) 0 with - | ⟨i, h⟩ <;> rfl

theorem AddImage_images_length (p : ImageSet) (img : Image) (x y : Nat) :
    (AddImage p img x y).images.length = p.images.length := by
  unfold AddImage
  rcases scanVariants p.protoImages (variants img) 0 with - | ⟨i, h⟩ <;>
    simp [List.length_set]

/-- C6 core: `AddImage` never removes or overwrites an existing registry
binding.  In the match case the registry is untouched; in the insert case
the inserted key was just checked to be absent (the identity variant's
lookup missed), so `mapSet` only appends. -/
theorem AddImage_proto_mono (p : ImageSet) (img : Image) (x y k : Nat) (v : Image)
    (h : List.lookup k p.protoImages = some v) :
    List.lookup k (AddImage p img x y).protoImages = some v := by
  unfold AddImage
  cases hscan : scanVariants p.protoImages (variants img) 0 with
  | some ih => exact h
  | none =>
    have hmiss : List.lookup (Hash img) p.protoImages = none :=
      scanVariants_all_none (variants img) p.protoImages 0 hscan img (by simp [variants])
    show List.lookup k (mapSet p.protoImages (Hash img) img) = some v
    rw [lookup_mapSet]
    have hk : k ≠ Hash img := by
      intro hc
      rw [hc, hmiss] at h
      exact Option.noConfusion h
    rw [if_neg hk]
    exact h

theorem AddImage_proto_ne_none (p : ImageSet) (img : Image) (x y k : Nat)
    (h : List.lookup k p.protoImages ≠ none) :
    List.lookup k (AddImage p img x y).protoImages ≠ none := by
  obtain ⟨v, hv⟩ := Option.ne_none_iff_exists.mp h
  rw [AddImage_proto_mono p img x y k v hv.symm]
  exact Option.noConfusion

/-- The key = hash-of-stored-image invariant of the registry. -/
def HashKeyInv (m : List (Nat × Image)) : Prop :=
  ∀ k v, List.lookup k m = some v → k = Hash v

theorem AddImage_hashKeyInv (p : ImageSet) (img : Image) (x y : Nat)
    (hinv : HashKeyInv p.protoImages) : HashKeyInv (AddImage p img x y).protoImages := by
  unfold AddImage
  cases hscan : scanVariants p.protoImages (variants img) 0 with
  | some ih => exact hinv
  | none =>
    intro k v hkv
    have hkv2 : List.lookup k (mapSet p.protoImages (Hash img) img) = some v := hkv
    rw [lookup_mapSet] at hkv2
    by_cases hk : k = Hash img
    · rw [if_pos hk] at hkv2
      obtain rfl := Option.some_inj.mp hkv2
      exact hk
    · rw [if_neg hk] at hkv2
      exact hinv k v hkv2

theorem getD_set_self (l : List Nat) (i v : Nat) (h : i < l.length) :
    (l.set i v).getD i 0 = v := by
  rw [List.getD_eq_getElem _ _ (by rw [List.length_set]; omega)]
  exact List.getElem_set_self _

theorem getD_set_ne (l : List Nat) (i j v : Nat) (h : i ≠ j) :
    (l.set i v).getD j 0 = l.getD j 0 := by
  by_cases hj : j < l.length
  · rw [List.getD_eq_getElem _ _ (by rw [List.length_set]; omega),
      List.getD_eq_getElem _ _ hj]
    exact List.getElem_set_ne h _
  · rw [List.getD_eq_default _ _ (by rw [List.length_set]; omega),
      List.getD_eq_default _ _ (by omega)]

/-- The fingerprint just recorded for the current cell is a registry key
right after the `AddImage` call. -/
theorem AddImage_current (p : ImageSet) (img : Image) (x y : Nat)
    (hidx : y * p.stride + x < p.images.length) :
    List.lookup ((AddImage p img x y).images.getD (y * p.stride + x) 0)
      (AddImage p img x y).protoImages ≠ none := by
  unfold AddImage
  cases hscan : scanVariants p.protoImages (variants img) 0 with
  | some ih =>
    obtain ⟨i, h⟩ := ih
    show List.lookup ((p.images.set (y * p.stride + x) h).getD (y * p.stride + x) 0)
      p.protoImages ≠ none
    rw [getD_set_self _ _ _ hidx]
    have hsome := scanVariants_some_isSome (variants img) p.protoImages 0 i h hscan
    intro hc
    rw [hc] at hsome
    exact Bool.noConfusion hsome
  | none =>
    show List.lookup ((p.images.set (y * p.stride + x) (Hash img)).getD (y * p.stride + x) 0)
      (mapSet p.protoImages (Hash img) img) ≠ none
    rw [getD_set_self _ _ _ hidx, lookup_mapSet, if_pos rfl]
    exact Option.noConfusion

/-- The other cells' recorded fingerprints are untouched by `AddImage`. -/
theorem AddImage_images_getD_ne (p : ImageSet) (img : Image) (x y j : Nat)
    (h : y * p.stride + x ≠ j) :
    (AddImage p img x y).images.getD j 0 = p.images.getD j 0 := by
  unfold AddImage
  cases hscan : scanVariants p.protoImages (variants img) 0 with
  | some ih =>
    obtain ⟨i, hh⟩ := ih
    exact getD_set_ne _ _ _ _ h
  | none =>
    exact getD_set_ne _ _ _ _ h

/-! ### The extraction pass as a fold, and its invariants -/

theorem processCells_nil (src : Image) (p : ImageSet) : processCells src p [] = p := rfl

theorem processCells_cons (src : Image) (p : ImageSet) (c : Nat × Nat) (cs : List (Nat × Nat)) :
    processCells src p (c :: cs) =
      processCells src (AddImage p (Crop src (cellBounds c.1 c.2)) c.1 c.2) cs := rfl

theorem processCells_append (src : Image) (p : ImageSet) (cs1 cs2 : List (Nat × Nat)) :
    processCells src p (cs1 ++ cs2) = processCells src (processCells src p cs1) cs2 :=
  List.foldl_append _ _ _ _

theorem processCells_stride (src : Image) : ∀ (cs : List (Nat × Nat)) (p : ImageSet),
    (processCells src p cs).stride = p.stride := by
  intro cs
  induction cs with
  | nil => intro p; rfl
  | cons c cs ih =>
    intro p
    rw [processCells_cons, ih, AddImage_stride]

theorem processCells_images_length (src : Image) : ∀ (cs : List (Nat × Nat)) (p : ImageSet),
    (processCells src p cs).images.length = p.images.length := by
  intro cs
  induction cs with
  | nil => intro p; rfl
  | cons c cs ih =>
    intro p
    rw [processCells_cons, ih, AddImage_images_length]

theorem processCells_proto_mono (src : Image) : ∀ (cs : List (Nat × Nat)) (p : ImageSet)
    (k : Nat) (v : Image), List.lookup k p.protoImages = some v →
    List.lookup k (processCells src p cs).protoImages = some v := by
  intro cs
  induction cs with
  | nil => intro p k v h; exact h
  | cons c cs ih =>
    intro p k v h
    rw [processCells_cons]
    exact ih _ k v (AddImage_proto_mono _ _ _ _ _ _ h)

theorem processCells_hashKeyInv (src : Image) : ∀ (cs : List (Nat × Nat)) (p : ImageSet),
    HashKeyInv p.protoImages → HashKeyInv (processCells src p cs).protoImages := by
  intro cs
  induction cs with
  | nil => intro p h; exact h
  | cons c cs ih =>
    intro p h
    rw [processCells_cons]
    exact ih _ (AddImage_hashKeyInv _ _ _ _ h)

/-- Cell records with fingerprints that are registry keys. -/
def GoodCells (p : ImageSet) (S : List (Nat × Nat)) : Prop :=
  ∀ c ∈ S, List.lookup (p.images.getD (c.2 * p.stride + c.1) 0) p.protoImages ≠ none

theorem AddImage_good (p : ImageSet) (img : Image) (x y : Nat) (S : List (Nat × Nat))
    (hS : GoodCells p S) (hidx : y * p.stride + x < p.images.length) :
    GoodCells (AddImage p img x y) ((x, y) :: S) := by
  intro c hc
  rw [AddImage_stride]
  rcases List.mem_cons.mp hc with hc | hc
  · subst hc
    exact AddImage_current p img x y hidx
  · by_cases hsame : c.2 * p.stride + c.1 = y * p.stride + x
    · rw [hsame]
      exact AddImage_current p img x y hidx
    · rw [AddImage_images_getD_ne p img x y _ (fun hc2 => hsame hc2.symm)]
      exact AddImage_proto_ne_none p img x y _ (hS c hc)

theorem processCells_good (src : Image) : ∀ (cs : List (Nat × Nat)) (p : ImageSet)
    (S : List (Nat × Nat)), GoodCells p S →
    (∀ c ∈ cs, c.2 * p.stride + c.1 < p.images.length) →
    GoodCells (processCells src p cs) (cs.reverse ++ S) := by
  intro cs
  induction cs with
  | nil => intro p S hS _; simpa using hS
  | cons c cs ih =>
    intro p S hS hlt
    rw [processCells_cons, List.reverse_cons, List.append_assoc, List.singleton_append]
    refine ih _ ((c.1, c.2) :: S) ?_ ?_
    · exact AddImage_good p _ c.1 c.2 S hS (hlt c (List.mem_cons_self c cs))
    · intro d hd
      rw [AddImage_stride, AddImage_images_length]
      exact hlt d (List.mem_cons_of_mem c hd)

theorem mem_cellList (numX numY x y : Nat) :
    (x, y) ∈ cellList numX numY ↔ x < numX ∧ y < numY := by
  simp only [cellList, List.mem_flatMap, List.mem_map, List.mem_range, Prod.mk.injEq]
  constructor
  · rintro ⟨b, hb, a, ha, rfl, rfl⟩
    exact ⟨ha, hb⟩
  · rintro ⟨hx, hy⟩
    exact ⟨y, hy, x, hx, rfl, rfl⟩

/-- The state `Process` builds just before the extraction loop when run on
a fresh `ImageSet` (the situation of every run of this program). -/
def processStart (img : Image) : ImageSet :=
  { NewImageSet with
      stride := (calculateNumberImages img.width img.height).1,
      images := List.replicate
        ((calculateNumberImages img.width img.height).1 *
          (calculateNumberImages img.width img.height).2) 0,
      orientations := List.replicate
        ((calculateNumberImages img.width img.height).1 *
          (calculateNumberImages img.width img.height).2) 0 }

theorem Process_some_eq (img : Image) :
    Process NewImageSet (some img) =
      (processCells img (processStart img)
        (cellList (calculateNumberImages img.width img.height).1
          (calculateNumberImages img.width img.height).2), true) := rfl

/-! ### Geometry of the orientation variants -/

theorem equiv_refl (a : Image) : Image.equiv a a :=
  ⟨rfl, rfl, fun _ _ _ _ => rfl⟩

theorem equiv_trans {a b c : Image} (h1 : Image.equiv a b) (h2 : Image.equiv b c) :
    Image.equiv a c := by
  obtain ⟨hw1, hh1, hp1⟩ := h1
  obtain ⟨hw2, hh2, hp2⟩ := h2
  refine ⟨hw1.trans hw2, hh1.trans hh2, ?_⟩
  intro x hx y hy
  rw [hp1 x hx y hy]
  exact hp2 x (hw1 ▸ hx) y (hh1 ▸ hy)

theorem Rotate90_congr (a b : Image) (h : Image.equiv a b) :
    Image.equiv (Rotate90 a) (Rotate90 b) := by
  obtain ⟨hw, hh, hpix⟩ := h
  refine ⟨hh, hw, ?_⟩
  intro x hx y hy
  simp only [Rotate90] at hx hy ⊢
  rw [← hw]
  exact hpix _ (by omega) _ (by omega)

theorem Rotate180_congr (a b : Image) (h : Image.equiv a b) :
    Image.equiv (Rotate180 a) (Rotate180 b) := by
  obtain ⟨hw, hh, hpix⟩ := h
  refine ⟨hw, hh, ?_⟩
  intro x hx y hy
  simp only [Rotate180] at hx hy ⊢
  rw [← hw, ← hh]
  exact hpix _ (by omega) _ (by omega)

theorem Rotate270_congr (a b : Image) (h : Image.equiv a b) :
    Image.equiv (Rotate270 a) (Rotate270 b) := by
  obtain ⟨hw, hh, hpix⟩ := h
  refine ⟨hh, hw, ?_⟩
  intro x hx y hy
  simp only [Rotate270] at hx hy ⊢
  rw [← hh]
  exact hpix _ (by omega) _ (by omega)

theorem FlipH_congr (a b : Image) (h : Image.equiv a b) :
    Image.equiv (FlipH a) (FlipH b) := by
  obtain ⟨hw, hh, hpix⟩ := h
  refine ⟨hw, hh, ?_⟩
  intro x hx y hy
  simp only [FlipH] at hx hy ⊢
  rw [← hw]
  exact hpix _ (by omega) _ (by omega)

theorem rot90_rot270 (img : Image) : Image.equiv (Rotate270 (Rotate90 img)) img := by
  refine ⟨rfl, rfl, ?_⟩
  intro x hx y hy
  simp only [Rotate270, Rotate90] at hx hy ⊢
  have hxx : img.width - 1 - (img.width - 1 - x) = x := by omega
  rw [hxx]

theorem rot270_rot90 (img : Image) : Image.equiv (Rotate90 (Rotate270 img)) img := by
  refine ⟨rfl, rfl, ?_⟩
  intro x hx y hy
  simp only [Rotate90, Rotate270] at hx hy ⊢
  have hyy : img.height - 1 - (img.height - 1 - y) = y := by omega
  rw [hyy]

theorem rot180_rot180 (img : Image) : Image.equiv (Rotate180 (Rotate180 img)) img := by
  refine ⟨rfl, rfl, ?_⟩
  intro x hx y hy
  simp only [Rotate180] at hx hy ⊢
  have hxx : img.width - 1 - (img.width - 1 - x) = x := by omega
  have hyy : img.height - 1 - (img.height - 1 - y) = y := by omega
  rw [hxx, hyy]

theorem flipH_flipH (img : Image) : Image.equiv (FlipH (FlipH img)) img := by
  refine ⟨rfl, rfl, ?_⟩
  intro x hx y hy
  simp only [FlipH] at hx hy ⊢
  have hxx : img.width - 1 - (img.width - 1 - x) = x := by omega
  rw [hxx]

theorem rowMajor_congr (a b : Image) (h : Image.equiv a b) : rowMajor a = rowMajor b := by
  obtain ⟨hw, hh, hpix⟩ := h
  unfold rowMajor
  rw [hh, hw]
  rw [List.flatMap_def, List.flatMap_def]
  refine congrArg List.flatten ?_
  refine List.map_congr_left ?_
  intro y hy
  refine List.map_congr_left ?_
  intro x hx
  exact hpix x (hw ▸ List.mem_range.mp hx) y (hh ▸ List.mem_range.mp hy)

theorem hashData_congr (a b : Image) (h : Image.equiv a b) : hashData a = hashData b := by
  unfold hashData
  rw [rowMajor_congr a b h, h.1, h.2.1]

/-- Hashing only reads the in-bounds pixels, so pixel-equal images hash
identically. -/
theorem Hash_congr (a b : Image) (h : Image.equiv a b) : Hash a = Hash b := by
  unfold Hash
  rw [hashData_congr a b h]

/-! ### Inverse transforms of the eight orientation codes -/

/-- The inverse geometric transform of orientation code `i`: rotations
invert to the complementary rotation, and `mirror then rotate by r`
inverts to `rotate by -r then mirror`. -/
def applyInverse (i : Nat) (img : Image) : Image :=
  match i with
  | 0 => img
  | 1 => Rotate270 img
  | 2 => Rotate180 img
  | 3 => Rotate90 img
  | 4 => FlipH img
  | 5 => FlipH (Rotate270 img)
  | 6 => FlipH (Rotate180 img)
  | 7 => FlipH (Rotate90 img)
  | _ => img

/-! ### Concrete images used to exercise the theorems -/

/-- A 2x1 tile whose two pixels differ only in the red channel. -/
def rectImgA : Image :=
  ⟨2, 1, fun x _ => if x = 0 then ⟨1, 0, 0, 0⟩ else ⟨2, 0, 0, 0⟩⟩

/-- A 2x1 tile: same as `alphaTileB` below except for one alpha value. -/
def alphaTileA : Image :=
  ⟨2, 1, fun x _ => if x = 0 then ⟨1, 2, 3, 4⟩ else ⟨5, 6, 7, 8⟩⟩

/-- Same as `alphaTileA` except the first pixel's alpha is 99 instead of 4. -/
def alphaTileB : Image :=
  ⟨2, 1, fun x _ => if x = 0 then ⟨1, 2, 3, 99⟩ else ⟨5, 6, 7, 8⟩⟩

/-- A 1x1 image. -/
def unitImgA : Image := ⟨1, 1, fun _ _ => ⟨1, 2, 3, 4⟩⟩

/-- Another 1x1 image with different content. -/
def unitImgB : Image := ⟨1, 1, fun _ _ => ⟨9, 9, 9, 9⟩⟩

/-- An image smaller than one tile in both directions. -/
def tinyImg : Image := ⟨5, 7, fun _ _ => ⟨0, 0, 0, 0⟩⟩

/-- An all-black image of exactly one tile. -/
def bigImg : Image := ⟨128, 128, fun _ _ => ⟨0, 0, 0, 0⟩⟩

/-- A state whose registry holds the 90-degree rotation of `rectImgA`. -/
def var1Set : ImageSet :=
  ⟨[(Hash (Rotate90 rectImgA), Rotate90 rectImgA)], [0, 0], [0, 0], 2⟩

/-- A state whose registry holds `unitImgA` under its hash. -/
def smallSet : ImageSet :=
  ⟨[(Hash unitImgA, unitImgA)], [0], [0], 1⟩

/-- The eight fixed labels of `GetOrientationLabel`. -/
def orientationLabels : List String :=
  ["Standard", "Rotated 90 degrees", "Rotated 180 degrees", "Rotated 270 degrees",
   "Mirrored", "Mirrored + Rotated 90 degrees", "Mirrored + Rotated 180 degrees",
   "Mirrored + Rotated 270 degrees"]

/-! ### Claim theorems -/

/-- C1: the claim says the fingerprint serializes all four channels of
every pixel, so tiles differing only in some pixel's alpha would
serialize differently.  The code does not: the cursor is never advanced
after the alpha write, so every non-final pixel's alpha bytes are
overwritten by the next pixel's red bytes.  `alphaTileA` and `alphaTileB`
differ exactly in the alpha of pixel (0,0) yet produce the same `data`
buffer and therefore the same `Hash` — evaluating the code at the failing
input. -/
theorem C1_hash_drops_nonlast_alpha :
    (alphaTileA.pix 0 0).a ≠ (alphaTileB.pix 0 0).a ∧
    (alphaTileA.pix 0 0).r = (alphaTileB.pix 0 0).r ∧
    (alphaTileA.pix 0 0).g = (alphaTileB.pix 0 0).g ∧
    (alphaTileA.pix 0 0).b = (alphaTileB.pix 0 0).b ∧
    alphaTileA.pix 1 0 = alphaTileB.pix 1 0 ∧
    alphaTileA.width = alphaTileB.width ∧ alphaTileA.height = alphaTileB.height ∧
    hashData alphaTileA = hashData alphaTileB ∧
    Hash alphaTileA = Hash alphaTileB := by
  decide

/-- C10: `GetOrientationLabel` masks its argument with `0x7` before the
switch, so for every byte value it returns one of the eight fixed
non-empty labels (the empty-string fall-through is unreachable) and
agrees with the value reduced mod 8. -/
theorem C10_orientation_label_total :
    ∀ b, b < 256 →
      GetOrientationLabel b ∈ orientationLabels ∧
      GetOrientationLabel b ≠ "" ∧
      GetOrientationLabel b = GetOrientationLabel (b % 8) := by
  decide

theorem C10_orientation_label_total_witness :
    GetOrientationLabel 77 ∈ orientationLabels ∧
    GetOrientationLabel 77 ≠ "" ∧
    GetOrientationLabel 77 = GetOrientationLabel (77 % 8) :=
  C10_orientation_label_total 77 (by decide)

/-- C7: when loading the source image fails, `Process` returns before
touching anything: the state is exactly the pre-run state and the writers
(`WriteImageFiles`, `WriteReport`) never run, so a run started from a
fresh `ImageSet` ends with no cell records, no registry entries and no
output artifacts. -/
theorem C7_load_failure_produces_nothing :
    (∀ p : ImageSet, Process p none = (p, false)) ∧
    (Process NewImageSet none).1.images = [] ∧
    (Process NewImageSet none).1.orientations = [] ∧
    (Process NewImageSet none).1.protoImages = [] ∧
    (Process NewImageSet none).2 = false :=
  ⟨fun _ => rfl, rfl, rfl, rfl, rfl⟩

/-- C8: applying the inverse transform of orientation `i` to the `i`-th
generated variant reproduces the original tile pixel for pixel. -/
theorem C8_orientation_roundtrip :
    ∀ (img : Image) (i : Nat), i < 8 →
      Image.equiv (applyInverse i ((variants img).getD i default)) img := by
  intro img i hi
  interval_cases i
  · exact equiv_refl img
  · exact rot90_rot270 img
  · exact rot180_rot180 img
  · exact rot270_rot90 img
  · exact flipH_flipH img
  · exact equiv_trans (FlipH_congr _ _ (rot90_rot270 (FlipH img))) (flipH_flipH img)
  · exact equiv_trans (FlipH_congr _ _ (rot180_rot180 (FlipH img))) (flipH_flipH img)
  · exact equiv_trans (FlipH_congr _ _ (rot270_rot90 (FlipH img))) (flipH_flipH img)

theorem C8_orientation_roundtrip_witness :
    Image.equiv (applyInverse 5 ((variants rectImgA).getD 5 default)) rectImgA :=
  C8_orientation_roundtrip rectImgA 5 (by decide)

/-- C6: the Prototype Registry grows monotonically: `AddImage` never
removes an entry and never overwrites the image bound to an existing
fingerprint key — every binding present before the call is present and
unchanged after it. -/
theorem C6_registry_monotone :
    ∀ (p : ImageSet) (img : Image) (x y k : Nat) (v : Image),
      List.lookup k p.protoImages = some v →
      List.lookup k (AddImage p img x y).protoImages = some v :=
  AddImage_proto_mono

theorem C6_registry_monotone_witness :
    List.lookup (Hash unitImgA) (AddImage smallSet unitImgB 0 0).protoImages = some unitImgA :=
  C6_registry_monotone smallSet unitImgB 0 0 (Hash unitImgA) unitImgA rfl

/-- C2: `AddImage` resolves each cell by scanning the 8 variants in index
order 0..7: if some variant's fingerprint is already a registry key, the
FIRST such index `j` and the matched fingerprint are recorded at the
cell's index and the registry is untouched; if none matches, the identity
variant's fingerprint is inserted (mapped to the identity tile) and
recorded with orientation code 0. -/
theorem C2_addimage_first_match_or_insert :
    ∀ (p : ImageSet) (img : Image) (x y : Nat),
      (∀ j, j < 8 →
        (∀ k, k < j →
          List.lookup (Hash ((variants img).getD k default)) p.protoImages = none) →
        (List.lookup (Hash ((variants img).getD j default)) p.protoImages).isSome = true →
        AddImage p img x y =
          { p with orientations := p.orientations.set (y * p.stride + x) j,
                   images := p.images.set (y * p.stride + x)
                     (Hash ((variants img).getD j default)) }) ∧
      ((∀ v ∈ variants img, List.lookup (Hash v) p.protoImages = none) →
        AddImage p img x y =
          { p with protoImages := mapSet p.protoImages (Hash img) img,
                   images := p.images.set (y * p.stride + x) (Hash img),
                   orientations := p.orientations.set (y * p.stride + x) 0 }) :=
  fun p img x y =>
    ⟨fun j hj hmiss hfound => AddImage_found p img x y j hj hmiss hfound,
     fun hmiss => AddImage_not_found p img x y hmiss⟩

theorem C2_addimage_first_match_or_insert_witness :
    (AddImage var1Set rectImgA 0 0 =
      { var1Set with
          orientations := var1Set.orientations.set (0 * var1Set.stride + 0) 1,
          images := var1Set.images.set (0 * var1Set.stride + 0)
            (Hash ((variants rectImgA).getD 1 default)) }) ∧
    (AddImage NewImageSet rectImgA 0 0 =
      { NewImageSet with
          protoImages := mapSet NewImageSet.protoImages (Hash rectImgA) rectImgA,
          images := NewImageSet.images.set (0 * NewImageSet.stride + 0) (Hash rectImgA),
          orientations := NewImageSet.orientations.set (0 * NewImageSet.stride + 0) 0 }) := by
  constructor
  · exact (C2_addimage_first_match_or_insert var1Set rectImgA 0 0).1 1 (by decide)
      (fun k hk => by interval_cases k; rfl) rfl
  · exact (C2_addimage_first_match_or_insert NewImageSet rectImgA 0 0).2 (fun v hv => rfl)

theorem index_lt_of_cell (x y numX numY : Nat) (hx : x < numX) (hy : y < numY) :
    y * numX + x < numX * numY := by
  calc y * numX + x < y * numX + numX := by omega
  _ = (y + 1) * numX := by ring
  _ ≤ numY * numX := Nat.mul_le_mul_right numX hy
  _ = numX * numY := Nat.mul_comm numY numX

theorem process_images_length (img : Image) :
    (Process NewImageSet (some img)).1.images.length =
      img.width / 128 * (img.height / 128) := by
  rw [Process_some_eq]
  show (processCells img (processStart img) _).images.length = _
  rw [processCells_images_length]
  simp [processStart, NewImageSet, List.length_replicate, calculateNumberImages,
    calculateStride]

/-- C4: a `Process` run produces exactly `floor(width/128) * floor(height/128)`
cell records; images smaller than one tile in either direction yield zero
cell records (and the run is a total function — no error is possible). -/
theorem C4_cell_count :
    ∀ img : Image,
      (128 ≤ img.width → 128 ≤ img.height →
        (Process NewImageSet (some img)).1.images.length =
          img.width / 128 * (img.height / 128)) ∧
      (img.width < 128 ∨ img.height < 128 →
        (Process NewImageSet (some img)).1.images.length = 0) := by
  intro img
  constructor
  · intro _ _
    exact process_images_length img
  · intro hsmall
    rw [process_images_length img]
    rcases hsmall with h | h
    · rw [Nat.div_eq_of_lt h, Nat.zero_mul]
    · rw [Nat.div_eq_of_lt h, Nat.mul_zero]

theorem C4_cell_count_witness :
    ((Process NewImageSet (some bigImg)).1.images.length =
      bigImg.width / 128 * (bigImg.height / 128)) ∧
    (Process NewImageSet (some tinyImg)).1.images.length = 0 :=
  ⟨(C4_cell_count bigImg).1 (by decide) (by decide),
   (C4_cell_count tinyImg).2 (by decide)⟩

/-- C5: at every intermediate point of a `Process` run — after the
`AddImage` calls for any prefix `cs1` of the row-major cell list — the
fingerprint recorded in every already-filled cell record is a key of the
Prototype Registry. -/
theorem C5_filled_cells_point_into_registry :
    ∀ (img : Image) (cs1 cs2 : List (Nat × Nat)),
      cellList (calculateNumberImages img.width img.height).1
          (calculateNumberImages img.width img.height).2 = cs1 ++ cs2 →
      ∀ c, c ∈ cs1 →
        List.lookup
          ((processCells img (processStart img) cs1).images.getD
            (c.2 * (processCells img (processStart img) cs1).stride + c.1) 0)
          (processCells img (processStart img) cs1).protoImages ≠ none := by
  intro img cs1 cs2 hsplit c hc
  have hgood := processCells_good img cs1 (processStart img) []
    (by intro d hd; simp at hd)
    (by
      intro d hd
      obtain ⟨dx, dy⟩ := d
      have hmem : (dx, dy) ∈ cellList (calculateNumberImages img.width img.height).1
          (calculateNumberImages img.width img.height).2 := by
        rw [hsplit]
        exact List.mem_append_left cs2 hd
      obtain ⟨hdx, hdy⟩ := (mem_cellList _ _ _ _).mp hmem
      show dy * (processStart img).stride + dx < (processStart img).images.length
      have hstride : (processStart img).stride =
          (calculateNumberImages img.width img.height).1 := rfl
      have hlen : (processStart img).images.length =
          (calculateNumberImages img.width img.height).1 *
            (calculateNumberImages img.width img.height).2 := by
        simp [processStart, List.length_replicate]
      rw [hstride, hlen]
      exact index_lt_of_cell dx dy _ _ hdx hdy)
  have hc2 : c ∈ cs1.reverse ++ [] := by
    rw [List.append_nil, List.mem_reverse]
    exact hc
  exact hgood c hc2

theorem C5_filled_cells_point_into_registry_witness :
    List.lookup
      ((processCells bigImg (processStart bigImg) [(0, 0)]).images.getD
        (0 * (processCells bigImg (processStart bigImg) [(0, 0)]).stride + 0) 0)
      (processCells bigImg (processStart bigImg) [(0, 0)]).protoImages ≠ none :=
  C5_filled_cells_point_into_registry bigImg [(0, 0)] [] (by decide) (0, 0) (by decide)

/-- C9: every Prototype Registry entry satisfies key = Hash(stored image):
`AddImage` preserves this invariant whenever it inserts (the inserted key
is exactly the hash of the stored identity tile), and it therefore holds
at every point of a `Process` run, whose registry starts empty. -/
theorem C9_registry_key_is_hash_of_image :
    (∀ (p : ImageSet) (img : Image) (x y : Nat),
      HashKeyInv p.protoImages → HashKeyInv (AddImage p img x y).protoImages) ∧
    (∀ (img : Image) (cs : List (Nat × Nat)),
      HashKeyInv (processCells img (processStart img) cs).protoImages) :=
  ⟨AddImage_hashKeyInv,
   fun img cs => processCells_hashKeyInv img cs (processStart img)
     (fun _ _ h => Option.noConfusion h)⟩

theorem C9_registry_key_is_hash_of_image_witness :
    HashKeyInv (AddImage NewImageSet unitImgA 0 0).protoImages :=
  C9_registry_key_is_hash_of_image.1 NewImageSet unitImgA 0 0
    (fun _ _ h => Option.noConfusion h)

/-! ### The C3 scenario: a 256x256 source image with four almost-black
quadrant tiles, each carrying a single coloured marker pixel.  The
top-right quadrant is the 90-degree rotation of the top-left one; the two
bottom quadrants are unique.  With single-marker tiles every variant's
byte buffer is a run of zeros with at most three non-zero bytes, so each
fingerprint has the closed form `markerHashVal` and can be computed
without folding over a quarter-million bytes. -/

/-- The all-zero pixel. -/
def zeroPix : Pixel := ⟨0, 0, 0, 0⟩

instance : Inhabited Pixel := ⟨zeroPix⟩

/-- A 128x128 tile that is `zeroPix` everywhere except one marker pixel. -/
def markerImg (cx cy : Nat) (m : Pixel) : Image :=
  ⟨128, 128, fun x y => if x = cx ∧ y = cy then m else zeroPix⟩

/-- One FNV-1a byte step. -/
def fnvByte (h b : Nat) : Nat := (h ^^^ b) * fnvPrime % uint64Mod

/-- Closed form of the fingerprint of `markerImg cx cy ⟨r,g,b,_⟩`. -/
def markerHashVal (cx cy r g b : Nat) : Nat :=
  let k := cy * 128 + cx
  let h0 := fnvOffsetBasis * powMod fnvPrime (12 * k) % uint64Mod
  let h1 := h0 * powMod fnvPrime 3 % uint64Mod
  let h2 := fnvByte h1 r
  let h3 := h2 * powMod fnvPrime 3 % uint64Mod
  let h4 := fnvByte h3 g
  let h5 := h4 * powMod fnvPrime 3 % uint64Mod
  let h6 := fnvByte h5 b
  h6 * powMod fnvPrime (12 * (16383 - k) + 4 + 65532) % uint64Mod

theorem convertUint32ToBytes_small (v : Nat) (hv : v < 256) :
    convertUint32ToBytes v = [0, 0, 0, v] := by
  unfold convertUint32ToBytes
  have h24 : v >>> 24 = 0 := by
    rw [Nat.shiftRight_eq_div_pow]
    exact Nat.div_eq_of_lt (by omega)
  have h16 : v >>> 16 = 0 := by
    rw [Nat.shiftRight_eq_div_pow]
    exact Nat.div_eq_of_lt (by omega)
  have h8 : v >>> 8 = 0 := by
    rw [Nat.shiftRight_eq_div_pow]
    exact Nat.div_eq_of_lt (by omega)
  have hv8 : v &&& 0xFF = v := by
    have := Nat.and_pow_two_sub_one_eq_mod v 8
    norm_num at this
    rw [this]
    exact Nat.mod_eq_of_lt hv
  rw [h24, h16, h8, hv8, Nat.zero_and]

theorem map_range_ite {α : Type} (n k : Nat) (hk : k < n) (P Z : α) :
    (List.range n).map (fun i => if i = k then P else Z) =
      List.replicate k Z ++ P :: List.replicate (n - k - 1) Z := by
  conv_lhs => rw [show n = k + (n - k) from by omega]
  rw [List.range_add, List.map_append, List.map_map]
  have h1 : List.map (fun i => if i = k then P else Z) (List.range k) =
      List.replicate k Z := by
    have hcg : ∀ i ∈ List.range k, (if i = k then P else Z) = Z := by
      intro i hi
      have := List.mem_range.mp hi
      rw [if_neg (by omega)]
    rw [List.map_congr_left hcg, List.map_const', List.length_range]
  have h2 : List.map ((fun i => if i = k then P else Z) ∘ (fun x => k + x))
      (List.range (n - k)) = P :: List.replicate (n - k - 1) Z := by
    rw [show n - k = (n - k - 1) + 1 from by omega, List.range_succ_eq_map,
      List.map_cons, List.map_map]
    have hhead : ((fun i => if i = k then P else Z) ∘ (fun x => k + x)) 0 = P := by
      simp [Function.comp]
    have htail : ∀ j ∈ List.range (n - k - 1),
        (((fun i => if i = k then P else Z) ∘ (fun x => k + x)) ∘ Nat.succ) j = Z := by
      intro j hj
      simp only [Function.comp_apply]
      rw [if_neg (by omega)]
    rw [hhead, List.map_congr_left htail, List.map_const', List.length_range]
    norm_num
  rw [h1, h2]

theorem flatMap_range_eq_oneD {α : Type} (w : Nat) (f : Nat → Nat → α) : ∀ (h : Nat),
    (List.range h).flatMap (fun y => (List.range w).map (fun x => f x y)) =
      (List.range (h * w)).map (fun i => f (i % w) (i / w)) := by
  intro h
  induction h with
  | zero => simp
  | succ n ih =>
    rw [List.range_succ, List.flatMap_append, ih,
      show (n + 1) * w = n * w + w from by ring, List.range_add, List.map_append,
      List.map_map]
    refine congrArg _ ?_
    rw [List.flatMap_cons, List.flatMap_nil, List.append_nil]
    refine (List.map_congr_left ?_).symm
    intro x hxr
    have hxw := List.mem_range.mp hxr
    have hwpos : 0 < w := by omega
    simp only [Function.comp_apply]
    rw [show n * w + x = w * n + x from by ring, Nat.mul_add_mod,
      Nat.mod_eq_of_lt hxw, Nat.mul_add_div hwpos, Nat.div_eq_of_lt hxw, Nat.add_zero]

theorem rowMajor_markerImg (cx cy : Nat) (m : Pixel) (hx : cx < 128) (hy : cy < 128) :
    rowMajor (markerImg cx cy m) =
      List.replicate (cy * 128 + cx) zeroPix ++
        m :: List.replicate (16383 - (cy * 128 + cx)) zeroPix := by
  unfold rowMajor
  rw [flatMap_range_eq_oneD]
  have hcg : ∀ i ∈ List.range ((markerImg cx cy m).height * (markerImg cx cy m).width),
      (markerImg cx cy m).pix (i % (markerImg cx cy m).width)
          (i / (markerImg cx cy m).width) =
        (if i = cy * 128 + cx then m else zeroPix) := by
    intro i hi
    have hi2 := List.mem_range.mp hi
    show (if i % 128 = cx ∧ i / 128 = cy then m else zeroPix) = _
    have hdm := Nat.div_add_mod i 128
    by_cases hcase : i = cy * 128 + cx
    · subst hcase
      rw [if_pos rfl, if_pos]
      constructor
      · rw [show cy * 128 + cx = 128 * cy + cx from by ring, Nat.mul_add_mod,
          Nat.mod_eq_of_lt hx]
      · rw [show cy * 128 + cx = 128 * cy + cx from by ring,
          Nat.mul_add_div (by omega), Nat.div_eq_of_lt hx, Nat.add_zero]
    · rw [if_neg hcase, if_neg]
      rintro ⟨h1, h2⟩
      omega
  rw [List.map_congr_left hcg]
  have hk : cy * 128 + cx < (markerImg cx cy m).height * (markerImg cx cy m).width := by
    show cy * 128 + cx < 128 * 128
    omega
  rw [map_range_ite _ _ hk]
  refine congrArg _ ?_
  refine congrArg _ ?_
  refine congrArg (fun t => List.replicate t zeroPix) ?_
  show 128 * 128 - (cy * 128 + cx) - 1 = 16383 - (cy * 128 + cx)
  omega

theorem fnvFold_zeros_append (j : Nat) (rest : List Nat) (h0 : Nat) (hlt : h0 < uint64Mod) :
    fnvFold h0 (List.replicate j 0 ++ rest) =
      fnvFold (h0 * fnvPrime ^ j % uint64Mod) rest := by
  rw [fnvFold_append, fnvFold_zeros j h0 hlt]

theorem fnvFold_byte (v : Nat) (rest : List Nat) (h0 : Nat) :
    fnvFold h0 (v :: rest) = fnvFold (fnvByte h0 v) rest := rfl

theorem mod_lt_uint64 (a : Nat) : a % uint64Mod < uint64Mod :=
  Nat.mod_lt _ uint64Mod_pos

theorem mod_mul_pow_merge (h a b : Nat) :
    h * fnvPrime ^ a % uint64Mod * fnvPrime ^ b % uint64Mod =
      h * fnvPrime ^ (a + b) % uint64Mod := by
  rw [Nat.mod_mul_mod, mul_assoc, ← pow_add]

theorem mul_powMod_eq (h e : Nat) (he : e < 2 ^ 64) :
    h * powMod fnvPrime e % uint64Mod = h * fnvPrime ^ e % uint64Mod := by
  rw [powMod_eq _ _ he, Nat.mul_mod h, Nat.mod_mod_of_dvd _ dvd_rfl, ← Nat.mul_mod]

theorem fnvByte_lt (h v : Nat) : fnvByte h v < uint64Mod :=
  Nat.mod_lt _ uint64Mod_pos

theorem fnvFold_zero3 (rest : List Nat) (h0 : Nat) (hlt : h0 < uint64Mod) :
    fnvFold h0 (0 :: 0 :: 0 :: rest) =
      fnvFold (h0 * fnvPrime ^ 3 % uint64Mod) rest := by
  rw [show (0 : Nat) :: 0 :: 0 :: rest = List.replicate 3 0 ++ rest from rfl]
  exact fnvFold_zeros_append 3 rest h0 hlt

theorem fnvFold_zero4 (rest : List Nat) (h0 : Nat) (hlt : h0 < uint64Mod) :
    fnvFold h0 (0 :: 0 :: 0 :: 0 :: rest) =
      fnvFold (h0 * fnvPrime ^ 4 % uint64Mod) rest := by
  rw [show (0 : Nat) :: 0 :: 0 :: 0 :: rest = List.replicate 4 0 ++ rest from rfl]
  exact fnvFold_zeros_append 4 rest h0 hlt

theorem fnv1a64_marker (k1 t1 t3 r g b : Nat) :
    fnv1a64 (List.replicate k1 0 ++ 0 :: 0 :: 0 :: r :: 0 :: 0 :: 0 :: g ::
        0 :: 0 :: 0 :: b ::
      (List.replicate t1 0 ++ 0 :: 0 :: 0 :: 0 :: List.replicate t3 0)) =
      fnvByte (fnvByte (fnvByte
          (fnvOffsetBasis * fnvPrime ^ k1 % uint64Mod * fnvPrime ^ 3 % uint64Mod) r
        * fnvPrime ^ 3 % uint64Mod) g * fnvPrime ^ 3 % uint64Mod) b
        * fnvPrime ^ (t1 + 4 + t3) % uint64Mod := by
  rw [fnv1a64_eq_fnvFold]
  rw [fnvFold_zeros_append _ _ _ fnvOffsetBasis_lt]
  rw [fnvFold_zero3 _ _ (mod_lt_uint64 _)]
  rw [fnvFold_byte]
  rw [fnvFold_zero3 _ _ (fnvByte_lt _ _)]
  rw [fnvFold_byte]
  rw [fnvFold_zero3 _ _ (fnvByte_lt _ _)]
  rw [fnvFold_byte]
  rw [fnvFold_zeros_append _ _ _ (fnvByte_lt _ _)]
  rw [fnvFold_zero4 _ _ (mod_lt_uint64 _)]
  rw [fnvFold_zeros _ _ (mod_lt_uint64 _)]
  rw [mod_mul_pow_merge, mod_mul_pow_merge, Nat.add_assoc]

theorem rgbBytes_cons (c : Pixel) (ps : List Pixel) :
    rgbBytes (c :: ps) =
      convertUint32ToBytes c.r ++ convertUint32ToBytes c.g ++ convertUint32ToBytes c.b ++
        rgbBytes ps := by
  simp [rgbBytes, List.flatMap_cons, List.append_assoc]

theorem rgbBytes_replicate_zero : ∀ j : Nat,
    rgbBytes (List.replicate j zeroPix) = List.replicate (12 * j) 0 := by
  intro j
  induction j with
  | zero => rfl
  | succ n ih =>
    rw [List.replicate_succ, rgbBytes_cons, ih]
    rw [show convertUint32ToBytes zeroPix.r = List.replicate 4 (0 : Nat) from rfl,
      show convertUint32ToBytes zeroPix.g = List.replicate 4 (0 : Nat) from rfl,
      show convertUint32ToBytes zeroPix.b = List.replicate 4 (0 : Nat) from rfl]
    rw [← List.replicate_add, ← List.replicate_add, ← List.replicate_add]
    refine congrArg (fun t => List.replicate t (0 : Nat)) ?_
    omega

theorem Hash_markerImg (cx cy : Nat) (m : Pixel) (hx : cx < 128) (hy : cy < 128)
    (hlast : cy * 128 + cx < 16383) (hr : m.r < 256) (hg : m.g < 256) (hb : m.b < 256) :
    Hash (markerImg cx cy m) = markerHashVal cx cy m.r m.g m.b := by
  have hrm := rowMajor_markerImg cx cy m hx hy
  rw [Hash_eq_fast]
  unfold HashF hashDataFast
  rw [hrm]
  rw [if_neg (by simp [List.isEmpty_iff])]
  have hB : List.replicate (16383 - (cy * 128 + cx)) zeroPix =
      List.replicate (16383 - (cy * 128 + cx) - 1) zeroPix ++ [zeroPix] := by
    rw [← List.replicate_succ']
    refine congrArg (fun t => List.replicate t zeroPix) ?_
    omega
  have hgl : (List.replicate (cy * 128 + cx) zeroPix ++ m ::
      List.replicate (16383 - (cy * 128 + cx)) zeroPix).getLast? = some zeroPix := by
    rw [hB, show List.replicate (cy * 128 + cx) zeroPix ++ m ::
        (List.replicate (16383 - (cy * 128 + cx) - 1) zeroPix ++ [zeroPix]) =
        (List.replicate (cy * 128 + cx) zeroPix ++ m ::
          List.replicate (16383 - (cy * 128 + cx) - 1) zeroPix) ++ [zeroPix] from by
      simp]
    exact List.getLast?_concat _
  rw [hgl]
  have hlen : (List.replicate (cy * 128 + cx) zeroPix ++ m ::
      List.replicate (16383 - (cy * 128 + cx)) zeroPix).length = 16384 := by
    simp [List.length_replicate]
    omega
  rw [hlen]
  rw [rgbBytes_append, rgbBytes_cons, rgbBytes_replicate_zero, rgbBytes_replicate_zero]
  rw [convertUint32ToBytes_small m.r hr, convertUint32ToBytes_small m.g hg,
    convertUint32ToBytes_small m.b hb]
  refine Eq.trans (congrArg fnv1a64 (?_ :
      _ = List.replicate (12 * (cy * 128 + cx)) 0 ++ 0 :: 0 :: 0 :: m.r ::
        0 :: 0 :: 0 :: m.g :: 0 :: 0 :: 0 :: m.b ::
        (List.replicate (12 * (16383 - (cy * 128 + cx))) 0 ++
          0 :: 0 :: 0 :: 0 :: List.replicate 65532 0))) ?_
  · rw [show convertUint32ToBytes ((some zeroPix).getD ⟨0, 0, 0, 0⟩).a =
      [0, 0, 0, 0] from rfl]
    rw [show (markerImg cx cy m).width * (markerImg cx cy m).height * 16 -
      (12 * 16384 + 4) = 65532 from by norm_num [markerImg]]
    simp only [List.append_assoc, List.cons_append, List.nil_append]
  · rw [fnv1a64_marker]
    have h2p : (2 : Nat) ^ 64 = 18446744073709551616 := by norm_num
    simp only [markerHashVal]
    rw [mul_powMod_eq _ _ (by omega), mul_powMod_eq _ _ (by omega),
      mul_powMod_eq _ _ (by omega), mul_powMod_eq _ _ (by omega),
      mul_powMod_eq _ _ (by omega)]

theorem lookup_cons_self (k : Nat) (v : Image) (rest : List (Nat × Image)) :
    List.lookup k ((k, v) :: rest) = some v := by
  simp [List.lookup_cons]

theorem lookup_cons_ne (k0 k : Nat) (v : Image) (rest : List (Nat × Image)) (h : k0 ≠ k) :
    List.lookup k0 ((k, v) :: rest) = List.lookup k0 rest := by
  have hb : (k0 == k) = false := beq_eq_false_iff_ne.mpr h
  simp [List.lookup_cons, hb]

theorem lookup_single_ne (k0 k : Nat) (v : Image) (h : k0 ≠ k) :
    List.lookup k0 [(k, v)] = none := by
  rw [lookup_cons_ne k0 k v [] h]
  rfl

theorem lookup_two_ne (k0 k1 k2 : Nat) (v1 v2 : Image) (h1 : k0 ≠ k1) (h2 : k0 ≠ k2) :
    List.lookup k0 [(k1, v1), (k2, v2)] = none := by
  rw [lookup_cons_ne k0 k1 v1 _ h1, lookup_cons_ne k0 k2 v2 [] h2]
  rfl

theorem processCells_cons_xy (src : Image) (p : ImageSet) (x y : Nat)
    (cs : List (Nat × Nat)) :
    processCells src p ((x, y) :: cs) =
      processCells src (AddImage p (Crop src (cellBounds x y)) x y) cs := rfl

/-- The C3 scenario, stated for an arbitrary 256x256 source image: if the
top-right tile is the `Rotate90` image of the top-left tile and the
variant fingerprints avoid the accidental collisions ruled out by the
hypotheses, the run produces 4 cell records, 3 registry entries and
orientation codes `[0, 3, 0, 0]` — cell (1,0) records code 3
(Rotated 270 degrees), because the code records the index of the variant
OF THE CELL's tile that matches the prototype, and rotating the top-right
tile by a further 270 degrees is what reproduces the top-left tile. -/
theorem scenario_spec (src : Image) (hw : src.width = 256) (hh : src.height = 256)
    (hTR : Image.equiv (Crop src (cellBounds 1 0)) (Rotate90 (Crop src (cellBounds 0 0))))
    (hTRmiss : ∀ k, k < 3 →
      Hash ((variants (Crop src (cellBounds 1 0))).getD k default) ≠
        Hash (Crop src (cellBounds 0 0)))
    (hBLmiss : ∀ v ∈ variants (Crop src (cellBounds 0 1)),
      Hash v ≠ Hash (Crop src (cellBounds 0 0)))
    (hBRmiss : ∀ v ∈ variants (Crop src (cellBounds 1 1)),
      Hash v ≠ Hash (Crop src (cellBounds 0 0)) ∧
      Hash v ≠ Hash (Crop src (cellBounds 0 1))) :
    (Process NewImageSet (some src)).1.images.length = 4 ∧
    (Process NewImageSet (some src)).1.protoImages.length = 3 ∧
    (Process NewImageSet (some src)).1.orientations = [0, 3, 0, 0] := by
  have hnums : calculateNumberImages src.width src.height = (2, 2) := by
    rw [hw, hh]; rfl
  have hcl : cellList (calculateNumberImages src.width src.height).1
      (calculateNumberImages src.width src.height).2 = [(0, 0), (1, 0), (0, 1), (1, 1)] := by
    rw [hnums]
    rfl
  have hstart : processStart src = ⟨[], [0, 0, 0, 0], [0, 0, 0, 0], 2⟩ := by
    simp only [processStart, hnums]
    rfl
  have e1 : AddImage (⟨[], [0, 0, 0, 0], [0, 0, 0, 0], 2⟩ : ImageSet)
      (Crop src (cellBounds 0 0)) 0 0 =
      ⟨[(Hash (Crop src (cellBounds 0 0)), Crop src (cellBounds 0 0))],
       [Hash (Crop src (cellBounds 0 0)), 0, 0, 0], [0, 0, 0, 0], 2⟩ := by
    rw [AddImage_not_found (⟨[], [0, 0, 0, 0], [0, 0, 0, 0], 2⟩ : ImageSet)
      (Crop src (cellBounds 0 0)) 0 0 (fun v _ => rfl)]
    rfl
  have hmatch : Hash ((variants (Crop src (cellBounds 1 0))).getD 3 default) =
      Hash (Crop src (cellBounds 0 0)) := by
    have h3 : (variants (Crop src (cellBounds 1 0))).getD 3 default =
        Rotate270 (Crop src (cellBounds 1 0)) := rfl
    rw [h3]
    exact Hash_congr _ _ (equiv_trans (Rotate270_congr _ _ hTR) (rot90_rot270 _))
  have e2 : AddImage
      (⟨[(Hash (Crop src (cellBounds 0 0)), Crop src (cellBounds 0 0))],
        [Hash (Crop src (cellBounds 0 0)), 0, 0, 0], [0, 0, 0, 0], 2⟩ : ImageSet)
      (Crop src (cellBounds 1 0)) 1 0 =
      ⟨[(Hash (Crop src (cellBounds 0 0)), Crop src (cellBounds 0 0))],
       [Hash (Crop src (cellBounds 0 0)), Hash (Crop src (cellBounds 0 0)), 0, 0],
       [0, 3, 0, 0], 2⟩ := by
    rw [AddImage_found
      (⟨[(Hash (Crop src (cellBounds 0 0)), Crop src (cellBounds 0 0))],
        [Hash (Crop src (cellBounds 0 0)), 0, 0, 0], [0, 0, 0, 0], 2⟩ : ImageSet)
      (Crop src (cellBounds 1 0)) 1 0 3 (by omega)
      (fun k hk => lookup_single_ne _ _ _ (hTRmiss k hk))
      (by rw [hmatch]
          show (List.lookup (Hash (Crop src (cellBounds 0 0)))
            [(Hash (Crop src (cellBounds 0 0)), Crop src (cellBounds 0 0))]).isSome = true
          rw [lookup_cons_self]
          rfl)]
    rw [hmatch]
    rfl
  have e3 : AddImage
      (⟨[(Hash (Crop src (cellBounds 0 0)), Crop src (cellBounds 0 0))],
        [Hash (Crop src (cellBounds 0 0)), Hash (Crop src (cellBounds 0 0)), 0, 0],
        [0, 3, 0, 0], 2⟩ : ImageSet)
      (Crop src (cellBounds 0 1)) 0 1 =
      ⟨[(Hash (Crop src (cellBounds 0 0)), Crop src (cellBounds 0 0)),
        (Hash (Crop src (cellBounds 0 1)), Crop src (cellBounds 0 1))],
       [Hash (Crop src (cellBounds 0 0)), Hash (Crop src (cellBounds 0 0)),
        Hash (Crop src (cellBounds 0 1)), 0],
       [0, 3, 0, 0], 2⟩ := by
    have hne : ¬ Hash (Crop src (cellBounds 0 0)) = Hash (Crop src (cellBounds 0 1)) :=
      fun hc => hBLmiss (Crop src (cellBounds 0 1)) (List.mem_cons_self _ _) hc.symm
    have hms : mapSet [(Hash (Crop src (cellBounds 0 0)), Crop src (cellBounds 0 0))]
        (Hash (Crop src (cellBounds 0 1))) (Crop src (cellBounds 0 1)) =
        [(Hash (Crop src (cellBounds 0 0)), Crop src (cellBounds 0 0)),
         (Hash (Crop src (cellBounds 0 1)), Crop src (cellBounds 0 1))] := by
      simp only [mapSet]
      rw [if_neg hne]
    rw [AddImage_not_found
      (⟨[(Hash (Crop src (cellBounds 0 0)), Crop src (cellBounds 0 0))],
        [Hash (Crop src (cellBounds 0 0)), Hash (Crop src (cellBounds 0 0)), 0, 0],
        [0, 3, 0, 0], 2⟩ : ImageSet)
      (Crop src (cellBounds 0 1)) 0 1
      (fun v hv => lookup_single_ne _ _ _ (hBLmiss v hv))]
    show ImageSet.mk
      (mapSet [(Hash (Crop src (cellBounds 0 0)), Crop src (cellBounds 0 0))]
        (Hash (Crop src (cellBounds 0 1))) (Crop src (cellBounds 0 1)))
      [Hash (Crop src (cellBounds 0 0)), Hash (Crop src (cellBounds 0 0)),
       Hash (Crop src (cellBounds 0 1)), 0]
      [0, 3, 0, 0] 2 = _
    rw [hms]
  have e4 : AddImage
      (⟨[(Hash (Crop src (cellBounds 0 0)), Crop src (cellBounds 0 0)),
         (Hash (Crop src (cellBounds 0 1)), Crop src (cellBounds 0 1))],
        [Hash (Crop src (cellBounds 0 0)), Hash (Crop src (cellBounds 0 0)),
         Hash (Crop src (cellBounds 0 1)), 0],
        [0, 3, 0, 0], 2⟩ : ImageSet)
      (Crop src (cellBounds 1 1)) 1 1 =
      ⟨[(Hash (Crop src (cellBounds 0 0)), Crop src (cellBounds 0 0)),
        (Hash (Crop src (cellBounds 0 1)), Crop src (cellBounds 0 1)),
        (Hash (Crop src (cellBounds 1 1)), Crop src (cellBounds 1 1))],
       [Hash (Crop src (cellBounds 0 0)), Hash (Crop src (cellBounds 0 0)),
        Hash (Crop src (cellBounds 0 1)), Hash (Crop src (cellBounds 1 1))],
       [0, 3, 0, 0], 2⟩ := by
    have hne1 : ¬ Hash (Crop src (cellBounds 0 0)) = Hash (Crop src (cellBounds 1 1)) :=
      fun hc => (hBRmiss (Crop src (cellBounds 1 1)) (List.mem_cons_self _ _)).1 hc.symm
    have hne2 : ¬ Hash (Crop src (cellBounds 0 1)) = Hash (Crop src (cellBounds 1 1)) :=
      fun hc => (hBRmiss (Crop src (cellBounds 1 1)) (List.mem_cons_self _ _)).2 hc.symm
    have hms : mapSet
        [(Hash (Crop src (cellBounds 0 0)), Crop src (cellBounds 0 0)),
         (Hash (Crop src (cellBounds 0 1)), Crop src (cellBounds 0 1))]
        (Hash (Crop src (cellBounds 1 1))) (Crop src (cellBounds 1 1)) =
        [(Hash (Crop src (cellBounds 0 0)), Crop src (cellBounds 0 0)),
         (Hash (Crop src (cellBounds 0 1)), Crop src (cellBounds 0 1)),
         (Hash (Crop src (cellBounds 1 1)), Crop src (cellBounds 1 1))] := by
      simp only [mapSet]
      rw [if_neg hne1, if_neg hne2]
    rw [AddImage_not_found
      (⟨[(Hash (Crop src (cellBounds 0 0)), Crop src (cellBounds 0 0)),
         (Hash (Crop src (cellBounds 0 1)), Crop src (cellBounds 0 1))],
        [Hash (Crop src (cellBounds 0 0)), Hash (Crop src (cellBounds 0 0)),
         Hash (Crop src (cellBounds 0 1)), 0],
        [0, 3, 0, 0], 2⟩ : ImageSet)
      (Crop src (cellBounds 1 1)) 1 1
      (fun v hv => lookup_two_ne _ _ _ _ _ (hBRmiss v hv).1 (hBRmiss v hv).2)]
    show ImageSet.mk
      (mapSet
        [(Hash (Crop src (cellBounds 0 0)), Crop src (cellBounds 0 0)),
         (Hash (Crop src (cellBounds 0 1)), Crop src (cellBounds 0 1))]
        (Hash (Crop src (cellBounds 1 1))) (Crop src (cellBounds 1 1)))
      [Hash (Crop src (cellBounds 0 0)), Hash (Crop src (cellBounds 0 0)),
       Hash (Crop src (cellBounds 0 1)), Hash (Crop src (cellBounds 1 1))]
      [0, 3, 0, 0] 2 = _
    rw [hms]
  rw [Process_some_eq, hcl, hstart, processCells_cons_xy, e1, processCells_cons_xy, e2,
    processCells_cons_xy, e3, processCells_cons_xy, e4]
  exact ⟨rfl, rfl, rfl⟩

/-! ### A concrete instance of the C3 quadrant scenario -/

/-- A concrete 256x256 source image for the quadrant scenario: the
top-left quadrant is a marker tile, the top-right quadrant is exactly the
`Rotate90` image of the top-left quadrant, and the two bottom quadrants
are distinct marker tiles of their own. -/
def scenarioImg : Image :=
  ⟨256, 256, fun x y =>
    if x < 128 then
      if y < 128 then (markerImg 1 0 ⟨1, 2, 3, 4⟩).pix x y
      else (markerImg 2 0 ⟨5, 6, 7, 8⟩).pix x (y - 128)
    else
      if y < 128 then (markerImg 1 0 ⟨1, 2, 3, 4⟩).pix (127 - y) (x - 128)
      else (markerImg 3 1 ⟨9, 10, 11, 12⟩).pix (x - 128) (y - 128)⟩

theorem scenT_hash :
    Hash (Crop scenarioImg (cellBounds 0 0)) = markerHashVal 1 0 1 2 3 := by
  have he : Image.equiv (Crop scenarioImg (cellBounds 0 0)) (markerImg 1 0 ⟨1, 2, 3, 4⟩) := by
    refine ⟨rfl, rfl, ?_⟩
    intro x hx y hy
    simp only [Rotate90, Rotate180, Rotate270, FlipH, Crop, scenarioImg, markerImg,
      cellBounds, zeroPix] at hx hy ⊢
    split_ifs <;> (first | rfl | omega)
  rw [Hash_congr _ _ he]
  exact Hash_markerImg 1 0 ⟨1, 2, 3, 4⟩ (by decide) (by decide) (by decide) (by decide)
    (by decide) (by decide)

theorem scenTR0_hash :
    Hash (Crop scenarioImg (cellBounds 1 0)) = markerHashVal 0 126 1 2 3 := by
  have he : Image.equiv (Crop scenarioImg (cellBounds 1 0))
      (markerImg 0 126 ⟨1, 2, 3, 4⟩) := by
    refine ⟨rfl, rfl, ?_⟩
    intro x hx y hy
    simp only [Rotate90, Rotate180, Rotate270, FlipH, Crop, scenarioImg, markerImg,
      cellBounds, zeroPix] at hx hy ⊢
    split_ifs <;> (first | rfl | omega)
  rw [Hash_congr _ _ he]
  exact Hash_markerImg 0 126 ⟨1, 2, 3, 4⟩ (by decide) (by decide) (by decide) (by decide)
    (by decide) (by decide)

theorem scenTR1_hash :
    Hash (Rotate90 (Crop scenarioImg (cellBounds 1 0))) = markerHashVal 126 127 1 2 3 := by
  have he : Image.equiv (Rotate90 (Crop scenarioImg (cellBounds 1 0)))
      (markerImg 126 127 ⟨1, 2, 3, 4⟩) := by
    refine ⟨rfl, rfl, ?_⟩
    intro x hx y hy
    simp only [Rotate90, Rotate180, Rotate270, FlipH, Crop, scenarioImg, markerImg,
      cellBounds, zeroPix] at hx hy ⊢
    split_ifs <;> (first | rfl | omega)
  rw [Hash_congr _ _ he]
  exact Hash_markerImg 126 127 ⟨1, 2, 3, 4⟩ (by decide) (by decide) (by decide) (by decide)
    (by decide) (by decide)

theorem scenTR2_hash :
    Hash (Rotate180 (Crop scenarioImg (cellBounds 1 0))) = markerHashVal 127 1 1 2 3 := by
  have he : Image.equiv (Rotate180 (Crop scenarioImg (cellBounds 1 0)))
      (markerImg 127 1 ⟨1, 2, 3, 4⟩) := by
    refine ⟨rfl, rfl, ?_⟩
    intro x hx y hy
    simp only [Rotate90, Rotate180, Rotate270, FlipH, Crop, scenarioImg, markerImg,
      cellBounds, zeroPix] at hx hy ⊢
    split_ifs <;> (first | rfl | omega)
  rw [Hash_congr _ _ he]
  exact Hash_markerImg 127 1 ⟨1, 2, 3, 4⟩ (by decide) (by decide) (by decide) (by decide)
    (by decide) (by decide)

theorem scenBL0_hash :
    Hash (Crop scenarioImg (cellBounds 0 1)) = markerHashVal 2 0 5 6 7 := by
  have he : Image.equiv (Crop scenarioImg (cellBounds 0 1))
      (markerImg 2 0 ⟨5, 6, 7, 8⟩) := by
    refine ⟨rfl, rfl, ?_⟩
    intro x hx y hy
    simp only [Rotate90, Rotate180, Rotate270, FlipH, Crop, scenarioImg, markerImg,
      cellBounds, zeroPix] at hx hy ⊢
    split_ifs <;> (first | rfl | omega)
  rw [Hash_congr _ _ he]
  exact Hash_markerImg 2 0 ⟨5, 6, 7, 8⟩ (by decide) (by decide) (by decide) (by decide)
    (by decide) (by decide)

theorem scenBL1_hash :
    Hash (Rotate90 (Crop scenarioImg (cellBounds 0 1))) = markerHashVal 0 125 5 6 7 := by
  have he : Image.equiv (Rotate90 (Crop scenarioImg (cellBounds 0 1)))
      (markerImg 0 125 ⟨5, 6, 7, 8⟩) := by
    refine ⟨rfl, rfl, ?_⟩
    intro x hx y hy
    simp only [Rotate90, Rotate180, Rotate270, FlipH, Crop, scenarioImg, markerImg,
      cellBounds, zeroPix] at hx hy ⊢
    split_ifs <;> (first | rfl | omega)
  rw [Hash_congr _ _ he]
  exact Hash_markerImg 0 125 ⟨5, 6, 7, 8⟩ (by decide) (by decide) (by decide) (by decide)
    (by decide) (by decide)

theorem scenBL2_hash :
    Hash (Rotate180 (Crop scenarioImg (cellBounds 0 1))) = markerHashVal 125 127 5 6 7 := by
  have he : Image.equiv (Rotate180 (Crop scenarioImg (cellBounds 0 1)))
      (markerImg 125 127 ⟨5, 6, 7, 8⟩) := by
    refine ⟨rfl, rfl, ?_⟩
    intro x hx y hy
    simp only [Rotate90, Rotate180, Rotate270, FlipH, Crop, scenarioImg, markerImg,
      cellBounds, zeroPix] at hx hy ⊢
    split_ifs <;> (first | rfl | omega)
  rw [Hash_congr _ _ he]
  exact Hash_markerImg 125 127 ⟨5, 6, 7, 8⟩ (by decide) (by decide) (by decide) (by decide)
    (by decide) (by decide)

theorem scenBL3_hash :
    Hash (Rotate270 (Crop scenarioImg (cellBounds 0 1))) = markerHashVal 127 2 5 6 7 := by
  have he : Image.equiv (Rotate270 (Crop scenarioImg (cellBounds 0 1)))
      (markerImg 127 2 ⟨5, 6, 7, 8⟩) := by
    refine ⟨rfl, rfl, ?_⟩
    intro x hx y hy
    simp only [Rotate90, Rotate180, Rotate270, FlipH, Crop, scenarioImg, markerImg,
      cellBounds, zeroPix] at hx hy ⊢
    split_ifs <;> (first | rfl | omega)
  rw [Hash_congr _ _ he]
  exact Hash_markerImg 127 2 ⟨5, 6, 7, 8⟩ (by decide) (by decide) (by decide) (by decide)
    (by decide) (by decide)

theorem scenBL4_hash :
    Hash (FlipH (Crop scenarioImg (cellBounds 0 1))) = markerHashVal 125 0 5 6 7 := by
  have he : Image.equiv (FlipH (Crop scenarioImg (cellBounds 0 1)))
      (markerImg 125 0 ⟨5, 6, 7, 8⟩) := by
    refine ⟨rfl, rfl, ?_⟩
    intro x hx y hy
    simp only [Rotate90, Rotate180, Rotate270, FlipH, Crop, scenarioImg, markerImg,
      cellBounds, zeroPix] at hx hy ⊢
    split_ifs <;> (first | rfl | omega)
  rw [Hash_congr _ _ he]
  exact Hash_markerImg 125 0 ⟨5, 6, 7, 8⟩ (by decide) (by decide) (by decide) (by decide)
    (by decide) (by decide)

theorem scenBL5_hash :
    Hash (Rotate90 (FlipH (Crop scenarioImg (cellBounds 0 1)))) = markerHashVal 0 2 5 6 7 := by
  have he : Image.equiv (Rotate90 (FlipH (Crop scenarioImg (cellBounds 0 1))))
      (markerImg 0 2 ⟨5, 6, 7, 8⟩) := by
    refine ⟨rfl, rfl, ?_⟩
    intro x hx y hy
    simp only [Rotate90, Rotate180, Rotate270, FlipH, Crop, scenarioImg, markerImg,
      cellBounds, zeroPix] at hx hy ⊢
    split_ifs <;> (first | rfl | omega)
  rw [Hash_congr _ _ he]
  exact Hash_markerImg 0 2 ⟨5, 6, 7, 8⟩ (by decide) (by decide) (by decide) (by decide)
    (by decide) (by decide)

theorem scenBL6_hash :
    Hash (Rotate180 (FlipH (Crop scenarioImg (cellBounds 0 1)))) = markerHashVal 2 127 5 6 7 := by
  have he : Image.equiv (Rotate180 (FlipH (Crop scenarioImg (cellBounds 0 1))))
      (markerImg 2 127 ⟨5, 6, 7, 8⟩) := by
    refine ⟨rfl, rfl, ?_⟩
    intro x hx y hy
    simp only [Rotate90, Rotate180, Rotate270, FlipH, Crop, scenarioImg, markerImg,
      cellBounds, zeroPix] at hx hy ⊢
    split_ifs <;> (first | rfl | omega)
  rw [Hash_congr _ _ he]
  exact Hash_markerImg 2 127 ⟨5, 6, 7, 8⟩ (by decide) (by decide) (by decide) (by decide)
    (by decide) (by decide)

theorem scenBL7_hash :
    Hash (Rotate270 (FlipH (Crop scenarioImg (cellBounds 0 1)))) = markerHashVal 127 125 5 6 7 := by
  have he : Image.equiv (Rotate270 (FlipH (Crop scenarioImg (cellBounds 0 1))))
      (markerImg 127 125 ⟨5, 6, 7, 8⟩) := by
    refine ⟨rfl, rfl, ?_⟩
    intro x hx y hy
    simp only [Rotate90, Rotate180, Rotate270, FlipH, Crop, scenarioImg, markerImg,
      cellBounds, zeroPix] at hx hy ⊢
    split_ifs <;> (first | rfl | omega)
  rw [Hash_congr _ _ he]
  exact Hash_markerImg 127 125 ⟨5, 6, 7, 8⟩ (by decide) (by decide) (by decide) (by decide)
    (by decide) (by decide)

theorem scenBR0_hash :
    Hash (Crop scenarioImg (cellBounds 1 1)) = markerHashVal 3 1 9 10 11 := by
  have he : Image.equiv (Crop scenarioImg (cellBounds 1 1))
      (markerImg 3 1 ⟨9, 10, 11, 12⟩) := by
    refine ⟨rfl, rfl, ?_⟩
    intro x hx y hy
    simp only [Rotate90, Rotate180, Rotate270, FlipH, Crop, scenarioImg, markerImg,
      cellBounds, zeroPix] at hx hy ⊢
    split_ifs <;> (first | rfl | omega)
  rw [Hash_congr _ _ he]
  exact Hash_markerImg 3 1 ⟨9, 10, 11, 12⟩ (by decide) (by decide) (by decide) (by decide)
    (by decide) (by decide)

theorem scenBR1_hash :
    Hash (Rotate90 (Crop scenarioImg (cellBounds 1 1))) = markerHashVal 1 124 9 10 11 := by
  have he : Image.equiv (Rotate90 (Crop scenarioImg (cellBounds 1 1)))
      (markerImg 1 124 ⟨9, 10, 11, 12⟩) := by
    refine ⟨rfl, rfl, ?_⟩
    intro x hx y hy
    simp only [Rotate90, Rotate180, Rotate270, FlipH, Crop, scenarioImg, markerImg,
      cellBounds, zeroPix] at hx hy ⊢
    split_ifs <;> (first | rfl | omega)
  rw [Hash_congr _ _ he]
  exact Hash_markerImg 1 124 ⟨9, 10, 11, 12⟩ (by decide) (by decide) (by decide) (by decide)
    (by decide) (by decide)

theorem scenBR2_hash :
    Hash (Rotate180 (Crop scenarioImg (cellBounds 1 1))) = markerHashVal 124 126 9 10 11 := by
  have he : Image.equiv (Rotate180 (Crop scenarioImg (cellBounds 1 1)))
      (markerImg 124 126 ⟨9, 10, 11, 12⟩) := by
    refine ⟨rfl, rfl, ?_⟩
    intro x hx y hy
    simp only [Rotate90, Rotate180, Rotate270, FlipH, Crop, scenarioImg, markerImg,
      cellBounds, zeroPix] at hx hy ⊢
    split_ifs <;> (first | rfl | omega)
  rw [Hash_congr _ _ he]
  exact Hash_markerImg 124 126 ⟨9, 10, 11, 12⟩ (by decide) (by decide) (by decide) (by decide)
    (by decide) (by decide)

theorem scenBR3_hash :
    Hash (Rotate270 (Crop scenarioImg (cellBounds 1 1))) = markerHashVal 126 3 9 10 11 := by
  have he : Image.equiv (Rotate270 (Crop scenarioImg (cellBounds 1 1)))
      (markerImg 126 3 ⟨9, 10, 11, 12⟩) := by
    refine ⟨rfl, rfl, ?_⟩
    intro x hx y hy
    simp only [Rotate90, Rotate180, Rotate270, FlipH, Crop, scenarioImg, markerImg,
      cellBounds, zeroPix] at hx hy ⊢
    split_ifs <;> (first | rfl | omega)
  rw [Hash_congr _ _ he]
  exact Hash_markerImg 126 3 ⟨9, 10, 11, 12⟩ (by decide) (by decide) (by decide) (by decide)
    (by decide) (by decide)

theorem scenBR4_hash :
    Hash (FlipH (Crop scenarioImg (cellBounds 1 1))) = markerHashVal 124 1 9 10 11 := by
  have he : Image.equiv (FlipH (Crop scenarioImg (cellBounds 1 1)))
      (markerImg 124 1 ⟨9, 10, 11, 12⟩) := by
    refine ⟨rfl, rfl, ?_⟩
    intro x hx y hy
    simp only [Rotate90, Rotate180, Rotate270, FlipH, Crop, scenarioImg, markerImg,
      cellBounds, zeroPix] at hx hy ⊢
    split_ifs <;> (first | rfl | omega)
  rw [Hash_congr _ _ he]
  exact Hash_markerImg 124 1 ⟨9, 10, 11, 12⟩ (by decide) (by decide) (by decide) (by decide)
    (by decide) (by decide)

theorem scenBR5_hash :
    Hash (Rotate90 (FlipH (Crop scenarioImg (cellBounds 1 1)))) = markerHashVal 1 3 9 10 11 := by
  have he : Image.equiv (Rotate90 (FlipH (Crop scenarioImg (cellBounds 1 1))))
      (markerImg 1 3 ⟨9, 10, 11, 12⟩) := by
    refine ⟨rfl, rfl, ?_⟩
    intro x hx y hy
    simp only [Rotate90, Rotate180, Rotate270, FlipH, Crop, scenarioImg, markerImg,
      cellBounds, zeroPix] at hx hy ⊢
    split_ifs <;> (first | rfl | omega)
  rw [Hash_congr _ _ he]
  exact Hash_markerImg 1 3 ⟨9, 10, 11, 12⟩ (by decide) (by decide) (by decide) (by decide)
    (by decide) (by decide)

theorem scenBR6_hash :
    Hash (Rotate180 (FlipH (Crop scenarioImg (cellBounds 1 1)))) = markerHashVal 3 126 9 10 11 := by
  have he : Image.equiv (Rotate180 (FlipH (Crop scenarioImg (cellBounds 1 1))))
      (markerImg 3 126 ⟨9, 10, 11, 12⟩) := by
    refine ⟨rfl, rfl, ?_⟩
    intro x hx y hy
    simp only [Rotate90, Rotate180, Rotate270, FlipH, Crop, scenarioImg, markerImg,
      cellBounds, zeroPix] at hx hy ⊢
    split_ifs <;> (first | rfl | omega)
  rw [Hash_congr _ _ he]
  exact Hash_markerImg 3 126 ⟨9, 10, 11, 12⟩ (by decide) (by decide) (by decide) (by decide)
    (by decide) (by decide)

theorem scenBR7_hash :
    Hash (Rotate270 (FlipH (Crop scenarioImg (cellBounds 1 1)))) = markerHashVal 126 124 9 10 11 := by
  have he : Image.equiv (Rotate270 (FlipH (Crop scenarioImg (cellBounds 1 1))))
      (markerImg 126 124 ⟨9, 10, 11, 12⟩) := by
    refine ⟨rfl, rfl, ?_⟩
    intro x hx y hy
    simp only [Rotate90, Rotate180, Rotate270, FlipH, Crop, scenarioImg, markerImg,
      cellBounds, zeroPix] at hx hy ⊢
    split_ifs <;> (first | rfl | omega)
  rw [Hash_congr _ _ he]
  exact Hash_markerImg 126 124 ⟨9, 10, 11, 12⟩ (by decide) (by decide) (by decide) (by decide)
    (by decide) (by decide)

/-- The top-right quadrant of `scenarioImg` is exactly the `Rotate90`
image of its top-left quadrant. -/
theorem scenTR_equiv : Image.equiv (Crop scenarioImg (cellBounds 1 0))
    (Rotate90 (Crop scenarioImg (cellBounds 0 0))) := by
  refine ⟨rfl, rfl, ?_⟩
  intro x hx y hy
  simp only [Rotate90, Crop, scenarioImg, markerImg, cellBounds, zeroPix] at hx hy ⊢
  split_ifs <;> (first | rfl | omega)

/-- The first three variants of the top-right tile miss the top-left
prototype's fingerprint. -/
theorem scenTRmiss : ∀ k, k < 3 →
    Hash ((variants (Crop scenarioImg (cellBounds 1 0))).getD k default) ≠
      Hash (Crop scenarioImg (cellBounds 0 0)) := by
  intro k hk
  interval_cases k
  · show Hash (Crop scenarioImg (cellBounds 1 0)) ≠ _
    rw [scenTR0_hash, scenT_hash]; decide
  · show Hash (Rotate90 (Crop scenarioImg (cellBounds 1 0))) ≠ _
    rw [scenTR1_hash, scenT_hash]; decide
  · show Hash (Rotate180 (Crop scenarioImg (cellBounds 1 0))) ≠ _
    rw [scenTR2_hash, scenT_hash]; decide

/-- No variant of the bottom-left tile matches the top-left prototype. -/
theorem scenBLmiss : ∀ v ∈ variants (Crop scenarioImg (cellBounds 0 1)),
    Hash v ≠ Hash (Crop scenarioImg (cellBounds 0 0)) := by
  intro v hv
  simp only [variants, List.mem_cons, List.not_mem_nil, or_false] at hv
  rcases hv with rfl | rfl | rfl | rfl | rfl | rfl | rfl | rfl
  · rw [scenBL0_hash, scenT_hash]; decide
  · rw [scenBL1_hash, scenT_hash]; decide
  · rw [scenBL2_hash, scenT_hash]; decide
  · rw [scenBL3_hash, scenT_hash]; decide
  · rw [scenBL4_hash, scenT_hash]; decide
  · rw [scenBL5_hash, scenT_hash]; decide
  · rw [scenBL6_hash, scenT_hash]; decide
  · rw [scenBL7_hash, scenT_hash]; decide

/-- No variant of the bottom-right tile matches either registered
prototype. -/
theorem scenBRmiss : ∀ v ∈ variants (Crop scenarioImg (cellBounds 1 1)),
    Hash v ≠ Hash (Crop scenarioImg (cellBounds 0 0)) ∧
    Hash v ≠ Hash (Crop scenarioImg (cellBounds 0 1)) := by
  intro v hv
  simp only [variants, List.mem_cons, List.not_mem_nil, or_false] at hv
  rcases hv with rfl | rfl | rfl | rfl | rfl | rfl | rfl | rfl
  · exact ⟨by rw [scenBR0_hash, scenT_hash]; decide, by rw [scenBR0_hash, scenBL0_hash]; decide⟩
  · exact ⟨by rw [scenBR1_hash, scenT_hash]; decide, by rw [scenBR1_hash, scenBL0_hash]; decide⟩
  · exact ⟨by rw [scenBR2_hash, scenT_hash]; decide, by rw [scenBR2_hash, scenBL0_hash]; decide⟩
  · exact ⟨by rw [scenBR3_hash, scenT_hash]; decide, by rw [scenBR3_hash, scenBL0_hash]; decide⟩
  · exact ⟨by rw [scenBR4_hash, scenT_hash]; decide, by rw [scenBR4_hash, scenBL0_hash]; decide⟩
  · exact ⟨by rw [scenBR5_hash, scenT_hash]; decide, by rw [scenBR5_hash, scenBL0_hash]; decide⟩
  · exact ⟨by rw [scenBR6_hash, scenT_hash]; decide, by rw [scenBR6_hash, scenBL0_hash]; decide⟩
  · exact ⟨by rw [scenBR7_hash, scenT_hash]; decide, by rw [scenBR7_hash, scenBL0_hash]; decide⟩

/-- Counterexample to the claimed orientation code: `scenarioImg` is a
256x256 source whose top-right quadrant is exactly the `Rotate90` image
of the top-left quadrant and whose bottom two quadrants are unique (their
fingerprints differ from each other's and from the top-left tile's), yet
the run records orientation code 3 — not 1 — for cell (1,0): the code
stores the index of the variant OF THE CELL's tile that reproduces the
prototype, and it is `Rotate270` of the top-right tile (index 3) that
equals the top-left tile. -/
theorem C3_counterexample :
    scenarioImg.width = 256 ∧ scenarioImg.height = 256 ∧
    Image.equiv (Crop scenarioImg (cellBounds 1 0))
      (Rotate90 (Crop scenarioImg (cellBounds 0 0))) ∧
    Hash (Crop scenarioImg (cellBounds 0 1)) ≠ Hash (Crop scenarioImg (cellBounds 0 0)) ∧
    Hash (Crop scenarioImg (cellBounds 1 1)) ≠ Hash (Crop scenarioImg (cellBounds 0 0)) ∧
    Hash (Crop scenarioImg (cellBounds 1 1)) ≠ Hash (Crop scenarioImg (cellBounds 0 1)) ∧
    (Process NewImageSet (some scenarioImg)).1.images.length = 4 ∧
    (Process NewImageSet (some scenarioImg)).1.protoImages.length = 3 ∧
    (Process NewImageSet (some scenarioImg)).1.orientations.getD 1 0 = 3 ∧
    (Process NewImageSet (some scenarioImg)).1.orientations.getD 1 0 ≠ 1 := by
  obtain ⟨h1, h2, h3⟩ :=
    scenario_spec scenarioImg rfl rfl scenTR_equiv scenTRmiss scenBLmiss scenBRmiss
  refine ⟨rfl, rfl, scenTR_equiv, ?_, ?_, ?_, h1, h2, ?_, ?_⟩
  · exact scenBLmiss _ (List.mem_cons_self _ _)
  · exact (scenBRmiss _ (List.mem_cons_self _ _)).1
  · exact (scenBRmiss _ (List.mem_cons_self _ _)).2
  · rw [h3]; rfl
  · rw [h3]; decide

/-- C3 (amended): for a 256x256 source image whose top-right quadrant is
the top-left quadrant rotated 90 degrees and whose bottom two quadrants
are unique (no variant fingerprint of either collides with the already
registered prototypes), processing produces exactly 4 cell records and 3
prototype registry entries, cell (1,0) gets orientation code 3 (Rotated
270 degrees) — the index of the cell-tile variant that reproduces the
prototype — and cells (0,0), (0,1), (1,1) all get orientation code 0. -/
theorem C3_quadrant_scenario (src : Image) (hw : src.width = 256) (hh : src.height = 256)
    (hTR : Image.equiv (Crop src (cellBounds 1 0)) (Rotate90 (Crop src (cellBounds 0 0))))
    (hTRmiss : ∀ k, k < 3 →
      Hash ((variants (Crop src (cellBounds 1 0))).getD k default) ≠
        Hash (Crop src (cellBounds 0 0)))
    (hBLmiss : ∀ v ∈ variants (Crop src (cellBounds 0 1)),
      Hash v ≠ Hash (Crop src (cellBounds 0 0)))
    (hBRmiss : ∀ v ∈ variants (Crop src (cellBounds 1 1)),
      Hash v ≠ Hash (Crop src (cellBounds 0 0)) ∧
      Hash v ≠ Hash (Crop src (cellBounds 0 1))) :
    (Process NewImageSet (some src)).1.images.length = 4 ∧
    (Process NewImageSet (some src)).1.protoImages.length = 3 ∧
    (Process NewImageSet (some src)).1.orientations.getD 0 0 = 0 ∧
    (Process NewImageSet (some src)).1.orientations.getD 1 0 = 3 ∧
    (Process NewImageSet (some src)).1.orientations.getD 2 0 = 0 ∧
    (Process NewImageSet (some src)).1.orientations.getD 3 0 = 0 := by
  obtain ⟨h1, h2, h3⟩ := scenario_spec src hw hh hTR hTRmiss hBLmiss hBRmiss
  refine ⟨h1, h2, ?_, ?_, ?_, ?_⟩ <;> rw [h3] <;> rfl

theorem C3_quadrant_scenario_witness :
    (Process NewImageSet (some scenarioImg)).1.images.length = 4 ∧
    (Process NewImageSet (some scenarioImg)).1.protoImages.length = 3 ∧
    (Process NewImageSet (some scenarioImg)).1.orientations.getD 0 0 = 0 ∧
    (Process NewImageSet (some scenarioImg)).1.orientations.getD 1 0 = 3 ∧
    (Process NewImageSet (some scenarioImg)).1.orientations.getD 2 0 = 0 ∧
    (Process NewImageSet (some scenarioImg)).1.orientations.getD 3 0 = 0 :=
  C3_quadrant_scenario scenarioImg rfl rfl scenTR_equiv scenTRmiss scenBLmiss scenBRmiss
